import Mathlib

/-!
# Verification of bfe core claims

A shallow embedding, in Lean 4, of the parts of the `bfe` reverse proxy
that the specification claims talk about:

* `bfe_util/ipdict/ipdict.go` — the IP range dictionary (sort / merge / trim),
* `bfe_http2/http2.go` — header field name/value validators,
* `bfe_route/host_table.go` — host/vip/product routing lookups,
* `bfe_server/reverseproxy.go` — the forwarding loop, the retry policy and
  the construction of the outbound request.

Go machine values are modelled as follows: 16-byte IPs (always produced by
`To16()`, compared with `bytes.Compare` on equal-length slices) become `Nat`
values below `2^128` under big-endian reading, so `bytes.Compare` is exactly
the `Nat` order; Go strings are lists of runes (`List Char`) where the code
iterates runes, and lists of byte values (`List Nat`) where the code indexes
bytes; Go maps appearing in the claims are association lists.  `sort.Sort`
with the descending `ipPairs.Less` comparator is modelled as insertion sort,
which coincides with Go's algorithm (shell pass with gap 6 followed by
insertion sort) on every slice of length at most 6, and in particular on all
concrete inputs evaluated in this file.
-/

namespace Ipdict

/-- One entry of the range array: `type ipPair struct { startIP, endIP net.IP }`,
with both IPs in canonical 16-byte form read as a big-endian `Nat`. -/
structure IpPair where
  startIP : Nat
  endIP : Nat
deriving DecidableEq, Repr

/-- `net.IPv6zero` (16 zero bytes) as a `Nat`. -/
def IPv6zero : Nat := 0

/-- `net.IPv4zero = IPv4(0,0,0,0)`, i.e. the 16-byte form `::ffff:0.0.0.0`,
as a big-endian `Nat`. -/
def IPv4zero : Nat := 0xffff00000000

/-- The 16-byte form (`To16`) of an IPv4 address `a.b.c.d`, as a `Nat`:
`::ffff:a.b.c.d`. -/
def ipv4 (a b c d : Nat) : Nat :=
  0xffff00000000 + a * 0x1000000 + b * 0x10000 + c * 0x100 + d

/-- Indexing `items[n]` of the Go slice; positions are always in bounds in
the source loops, the default is never read. -/
def getPair (items : List IpPair) (n : Nat) : IpPair :=
  items.getD n ⟨0, 0⟩

/-- The common tombstone / sentinel test of `mergeItems` and `checkMerge`:
`bytes.Equal(p.endIP, net.IPv6zero) || bytes.Equal(p.endIP, net.IPv4zero)`. -/
def isSkip (p : IpPair) : Bool :=
  p.endIP == IPv6zero || p.endIP == IPv4zero

/-- `ipPairs.Less(i, j)`: `bytes.Compare(items[i].startIP, items[j].startIP) >= 0`,
i.e. descending order of start IPs. -/
def pairLess (p q : IpPair) : Bool :=
  q.startIP ≤ p.startIP

/-- Insertion of one element into the already-sorted prefix, as Go's
insertion sort performs it: the new element moves left past every element
`y` with `Less(x, y)` (so on equal keys the new element ends up first). -/
def insPair (x : IpPair) : List IpPair → List IpPair
  | [] => [x]
  | y :: ys => if pairLess x y then x :: y :: ys else y :: insPair x ys

/-- `sort.Sort(ipItems.items)` with the descending comparator: processes the
slice left to right inserting each element into the sorted prefix. -/
def sortPairs (items : List IpPair) : List IpPair :=
  items.foldl (fun acc x => insPair x acc) []

/-- The inner `for k := i + 1; k < j; k++` loop of `checkMerge`: tombstone
every non-sentinel entry strictly between `i` and `j`, counting them.
`fuel` is the remaining number of positions (`j - k`). -/
def tombK (items : List IpPair) (k : Nat) : Nat → List IpPair × Nat
  | 0 => (items, 0)
  | fuel + 1 =>
    if isSkip (getPair items k) then tombK items (k + 1) fuel
    else
      let r := tombK (items.set k ⟨IPv6zero, IPv6zero⟩) (k + 1) fuel
      (r.1, 1 + r.2)

/-- `checkMerge(i, j)`: if `items[j].endIP >= items[i].startIP`, absorb
`items[j]` into `items[i]` (start from `j`, end the max of the two), zero
out `items[j]`, and tombstone everything strictly between. -/
def checkMerge (items : List IpPair) (i j : Nat) : List IpPair × Nat :=
  if (getPair items i).startIP ≤ (getPair items j).endIP then
    let pi := getPair items i
    let pj := getPair items j
    let newEnd := if pi.endIP ≤ pj.endIP then pj.endIP else pi.endIP
    let items1 := items.set i ⟨pj.startIP, newEnd⟩
    let items2 := items1.set j ⟨IPv6zero, IPv6zero⟩
    let r := tombK items2 (i + 1) (j - (i + 1))
    (r.1, 1 + r.2)
  else (items, 0)

/-- The inner `for j := i + 1; j < length; j++` loop of `mergeItems`; note
the source's skip test reads `items[j].endIP` against `IPv6zero` but
`items[i].endIP` against `IPv4zero`.  `fuel` is `length - j`. -/
def mergeInner (items : List IpPair) (i j : Nat) : Nat → List IpPair × Nat
  | 0 => (items, 0)
  | fuel + 1 =>
    let s :=
      if (getPair items j).endIP == IPv6zero
          || (getPair items i).endIP == IPv4zero then (items, 0)
      else checkMerge items i j
    let r := mergeInner s.1 i (j + 1) fuel
    (r.1, s.2 + r.2)

/-- The outer `for i := 0; i < length-1; i++` loop of `mergeItems`;
`fuel` is `length - 1 - i`. -/
def mergeOuter (items : List IpPair) (i : Nat) : Nat → List IpPair × Nat
  | 0 => (items, 0)
  | fuel + 1 =>
    let s :=
      if isSkip (getPair items i) then (items, 0)
      else mergeInner items i (i + 1) (items.length - (i + 1))
    let r := mergeOuter s.1 (i + 1) fuel
    (r.1, s.2 + r.2)

/-- `mergeItems()`: merge the sorted range array in place, returning the
number of zeroed entries. -/
def mergeItems (items : List IpPair) : List IpPair × Nat :=
  mergeOuter items 0 (items.length - 1)

/-- `IPItems.Sort()` (the `finalize` step of the spec): sort descending by
start IP, merge, sort again, and reslice to `len(items) - mergedNum`. -/
def ipdictSort (items : List IpPair) : List IpPair :=
  let s1 := sortPairs items
  let (merged, num) := mergeItems s1
  let s2 := sortPairs merged
  s2.take (s1.length - num)

/-- The zeroed entry `checkMerge` writes over absorbed ranges. -/
def tombPair : IpPair := ⟨IPv6zero, IPv6zero⟩

/-- A well-formed inserted range: start at most end (`InsertPair` validates
the pair before appending) and an end IP that is neither of the two zero
sentinels the merge step treats as empty slots. -/
def goodPair (p : IpPair) : Prop :=
  p.startIP ≤ p.endIP ∧ isSkip p = false

/-- An entry of the array during and after merging: either the zeroed
tombstone or a live well-formed range. -/
def tombOrGood (p : IpPair) : Prop :=
  p = tombPair ∨ goodPair p

/-- A fully normalised range array: every entry is a tombstone or a live
range, and any two entries in order are strictly separated (the later one
ends strictly below where the earlier one starts). -/
def normalized (F : List IpPair) : Prop :=
  (∀ p ∈ F, tombOrGood p) ∧
    F.Pairwise (fun a b => b.endIP < a.startIP)

/-- Live entries, as counted by the sentinel test. -/
def aliveCnt (l : List IpPair) : Nat :=
  l.countP (fun p => !isSkip p)

end Ipdict

namespace Http2

/-- The `[127]bool` token table `isTokenTable` of `bfe_http2/http2.go`,
as the list of rune values mapped to `true` (all other indices of the Go
array are `false`, and indices outside `0..126` do not exist). -/
def isTokenTableTrue : List Nat :=
  [33, 35, 36, 37, 38, 39, 42, 43, 45, 46,
   48, 49, 50, 51, 52, 53, 54, 55, 56, 57,
   65, 66, 67, 68, 69, 70, 71, 72, 73, 74, 75, 76, 77, 78, 79, 80,
   81, 82, 83, 84, 85, 87, 86, 88, 89, 90,
   94, 95, 96,
   97, 98, 99, 100, 101, 102, 103, 104, 105, 106, 107, 108, 109, 110,
   111, 112, 113, 114, 115, 116, 117, 118, 119, 120, 121, 122,
   124, 126]

/-- `isTokenTable[b]` for `b < 127`. -/
def isTokenTable (b : Nat) : Bool :=
  isTokenTableTrue.contains b

/-- `validHeaderFieldName(v)`: `v` is a Go string iterated as runes
(`for _, r := range v`), modelled as the list of its rune values; any byte
sequence that is not single-byte ASCII decodes to a rune `>= 0x80`, so the
rune-list model is faithful.  Source: empty string is invalid; a rune is
rejected when `int(r) >= len(isTokenTable)` (127), when `'A' <= r && r <= 'Z'`,
or when `!isTokenTable[byte(r)]`. -/
def validHeaderFieldName (v : List Nat) : Bool :=
  if v.length == 0 then false
  else v.all fun r =>
    if 127 ≤ r || (65 ≤ r && r ≤ 90) then false
    else isTokenTable r

/-- `validHeaderFieldValue(v)`: `v` is indexed byte-wise
(`for i := 0 .. len(v)`), modelled as the list of its byte values.
Source: reject when `b < ' ' && b != '\t' || b == 0x7f`. -/
def validHeaderFieldValue (v : List Nat) : Bool :=
  v.all fun b => !((b < 32 && b != 9) || b == 127)

/-- The RFC 7230 `tchar` set as enumerated in the comment above
`validHeaderFieldName`:
`"!" / "#" / "$" / "%" / "&" / "'" / "*" / "+" / "-" / "." / "^" / "_" /
 "`" / "|" / "~" / DIGIT / ALPHA`.  This is the claim-side definition the
source table is compared against. -/
def rfc7230Tchar (r : Nat) : Bool :=
  r == 33 || r == 35 || r == 36 || r == 37 || r == 38 || r == 39
    || r == 42 || r == 43 || r == 45 || r == 46 || r == 94 || r == 95
    || r == 96 || r == 124 || r == 126
    || (48 ≤ r && r ≤ 57)
    || (65 ≤ r && r ≤ 90)
    || (97 ≤ r && r ≤ 122)

/-- An uppercase ASCII letter (`'A' <= r && r <= 'Z'`). -/
def isUpperAscii (r : Nat) : Bool :=
  65 ≤ r && r ≤ 90

end Http2

namespace Route

/-- `strings.Split(s, sep)` for a one-character separator: the pieces of
`s` around every occurrence of `sep` (n separators give n+1 pieces,
empty pieces included). -/
def goSplit (sep : Char) : List Char → List (List Char)
  | [] => [[]]
  | c :: rest =>
    match goSplit sep rest with
    | [] => [[c]]
    | g :: gs => if c = sep then [] :: g :: gs else (c :: g) :: gs

/-- Appending one non-separator character to a string appends it to the
last piece of the split; `appendLast` is that operation on piece lists
(used to characterize `goSplit` of a reversed string). -/
def appendLast (segs : List (List Char)) (c : Char) : List (List Char) :=
  match segs with
  | [] => [[c]]
  | [g] => [g ++ [c]]
  | g :: rest => g :: appendLast rest c

/-- `reverseFqdnHost(host)`: reverse the rune slice; if the result starts
with `'.'` (the host ended with a dot), drop that first rune. -/
def reverseFqdnHost (host : List Char) : List Char :=
  match host.reverse with
  | '.' :: t => t
  | r => r

/-- `hostnameStrip(hostname)`: `strings.Split(hostname, ":")[0]`. -/
def hostnameStrip (hostname : List Char) : List Char :=
  match goSplit ':' hostname with
  | [] => []
  | s :: _ => s

/-- `strings.ToLower` on the ASCII range (hostnames in the claims are
ASCII; Unicode case folding never changes ASCII characters). -/
def toLowerChar (c : Char) : Char :=
  if 'A' ≤ c ∧ c ≤ 'Z' then Char.ofNat (c.toNat + 32) else c

/-- `strings.ToLower(s)` character-wise. -/
def toLowerGo (s : List Char) : List Char :=
  s.map toLowerChar

/-- The `route` struct of `host_table.go`: product and tag names. -/
structure TrieRoute where
  product : String
  tag : String
deriving DecidableEq, Repr

/-- Modelled from the spec: the prefix tree `bfe_route/trie` is not under
`src/`; spec section 4.D describes the host trie purely as a mapping keyed
by hostname label sequences, and the claims settled here depend only on
which key sequence `Set` and `Get` receive, so the trie is modelled as a
finite map from label sequences to `route` values. -/
def Trie := List (List (List Char) × TrieRoute)

/-- `trie.Get(key)` in the finite-map model: the most recently set binding
of exactly this key. -/
def trieGet (t : Trie) (key : List (List Char)) : Option TrieRoute :=
  (List.find? (fun e => e.1 == key) t).map (·.2)

/-- `trie.Set(key, value)` in the finite-map model. -/
def trieSet (t : Trie) (key : List (List Char)) (v : TrieRoute) : Trie :=
  (key, v) :: t

/-- Reading a Go `map[string]string` returns the zero value `""` for an
absent key. -/
def mapGetD (m : List (String × String)) (k : String) : String :=
  ((List.find? (fun e => e.1 == k) m).map (·.2)).getD ""

/-- `host_rule_conf.HostConf` (the fields `buildHostRoute` and the host
table use). Hostnames are rune lists; tags and products are strings. -/
structure HostConf where
  HostMap : List (List Char × String)
  HostTagMap : List (String × String)
  DefaultProduct : String

/-- `buildHostRoute(conf)`: for every `host -> tag` binding, lower-case the
host and set `route{product: HostTagMap[tag], tag: tag}` into the trie at
key `strings.Split(reverseFqdnHost(host), ".")`. -/
def buildHostRoute (conf : HostConf) : Trie :=
  conf.HostMap.foldl
    (fun t entry =>
      let host := toLowerGo entry.1
      let product := mapGetD conf.HostTagMap entry.2
      trieSet t (goSplit '.' (reverseFqdnHost host)) ⟨product, entry.2⟩)
    []

/-- Routing errors of `host_table.go`. -/
inductive RouteError where
  | ErrNoProduct
  | ErrNoProductRule
  | ErrNoMatchRule
deriving DecidableEq, Repr

/-- The routing scratch of a request (`req.Route`). -/
structure RequestRoute where
  HostTag : String := ""
  Product : String := ""
  ClusterName : String := ""
  Error : Option RouteError := none

/-- The request fields the host table reads and writes:
`req.HttpRequest.Host`, `req.Session.Vip` (already rendered by `.String()`),
and the routing scratch. -/
structure Request where
  host : List Char
  vip : Option String
  route : RequestRoute := {}

/-- One product route rule: condition and target cluster name. -/
structure RouteRule where
  Cond : Request → Bool
  ClusterName : String

/-- The `HostTable` fields used by the lookups settled here. -/
structure HostTable where
  hostTrie : Option Trie
  vipTable : List (String × String)
  defaultProduct : String
  productRouteTable : List (String × List RouteRule)

/-- `findHostRoute(host)`: fail with `ErrNoProduct` when the trie is nil;
otherwise lower-case the host and query the trie at
`strings.Split(reverseFqdnHost(hostnameStrip(host)), ".")`. -/
def findHostRoute (t : HostTable) (host : List Char) : TrieRoute × Option RouteError :=
  match t.hostTrie with
  | none => (⟨"", ""⟩, some .ErrNoProduct)
  | some trie =>
    let host' := toLowerGo host
    match trieGet trie (goSplit '.' (reverseFqdnHost (hostnameStrip host'))) with
    | some r => (r, none)
    | none => (⟨"", ""⟩, some .ErrNoProduct)

/-- `findVipRoute(vip)`: `ErrNoProduct` when the vip table is empty or the
vip is absent, else `route{product: vipTable[vip]}`. -/
def findVipRoute (t : HostTable) (vip : String) : TrieRoute × Option RouteError :=
  if t.vipTable.length == 0 then (⟨"", ""⟩, some .ErrNoProduct)
  else
    match List.find? (fun e => e.1 == vip) t.vipTable with
    | some e => (⟨e.2, ""⟩, none)
    | none => (⟨"", ""⟩, some .ErrNoProduct)

/-- `LookupHostTagAndProduct(req)`: product by hostname, falling back to
the vip route when the session carries a vip, then to the configured
default product; the resolved tag/product/error are stored into
`req.Route` and the error returned. -/
def LookupHostTagAndProduct (t : HostTable) (req : Request) :
    Request × Option RouteError :=
  let hostName := req.host
  let hp := findHostRoute t hostName
  let hp :=
    match hp.2, req.vip with
    | some _, some vip => findVipRoute t vip
    | _, _ => hp
  let hp :=
    if hp.2.isSome ∧ t.defaultProduct ≠ "" then
      (⟨t.defaultProduct, ""⟩, none)
    else hp
  ({ req with route :=
      { req.route with
        HostTag := hp.1.tag
        Product := hp.1.product
        Error := hp.2 } },
   hp.2)

/-- `LookupCluster(req)`: `ErrNoProductRule` when the product has no rule
list; otherwise the cluster name of the first rule whose condition matches
(the zero value `""` when none matches), with `ErrNoMatchRule` when that
name is empty. -/
def LookupCluster (t : HostTable) (req : Request) : Request × Option RouteError :=
  match List.find? (fun e => e.1 == req.route.Product) t.productRouteTable with
  | none =>
    ({ req with route := { req.route with ClusterName := "", Error := some .ErrNoProductRule } },
     some .ErrNoProductRule)
  | some (_, rules) =>
    let clusterName :=
      match List.find? (fun rule => rule.Cond req) rules with
      | some rule => rule.ClusterName
      | none => ""
    if clusterName == "" then
      ({ req with route := { req.route with ClusterName := "", Error := some .ErrNoMatchRule } },
       some .ErrNoMatchRule)
    else
      ({ req with route := { req.route with ClusterName := clusterName } }, none)

end Route

namespace Proxy

/-- `RetryConnect` of `cluster_conf_load.go`. -/
def RetryConnect : Nat := 0

/-- `RetryGet` (`ConnectOrGetBody`) of `cluster_conf_load.go`. -/
def RetryGet : Nat := 1

/-- The shapes `checkRequestWithoutBody` distinguishes for `req.Body`:
nil, the shared `bfe_http.EofReader`, a `*bfe_spdy.RequestBody` (with its
`Eof()` state), or any other reader. -/
inductive Body where
  | noBody
  | eofReader
  | spdyBody (eof : Bool)
  | otherBody
deriving DecidableEq, Repr

/-- A header map `bfe_http.Header`: association list from canonical header
keys to value lists (the hop-by-hop names below are already canonical, and
`Get`/`Del` canonicalise their argument, so plain key equality is exact). -/
def Header := List (String × List String)
deriving instance DecidableEq for Header

/-- `Header.Get(k)`: first value of the key, or `""` when the key is absent
or its value list is empty. -/
def headerGet (h : Header) (k : String) : String :=
  match List.find? (fun e => e.1 == k) h with
  | some (_, v :: _) => v
  | _ => ""

/-- `Header.Del(k)`: remove the key. -/
def headerDel (h : Header) (k : String) : Header :=
  List.filter (fun e => e.1 != k) h

/-- `bfe_http.CopyHeader(dst, src)` into a fresh map: the fresh map holds
the same contents; whether the result is shared or fresh is tracked by the
boolean alongside it in `hopByHopHeaderRemove`. -/
def CopyHeader (src : Header) : Header := src

/-- The outbound request fields written by `httpProtoSet` and
`hopByHopHeaderRemove` plus those `checkAllowRetry` reads. -/
structure OutRequest where
  Method : String
  Body : Body
  Proto : String
  ProtoMajor : Nat
  ProtoMinor : Nat
  Close : Bool
  Header : Header

/-- The `hopHeaders` list of `reverseproxy.go`. -/
def hopHeaders : List String :=
  ["Connection", "Keep-Alive", "Proxy-Authenticate", "Proxy-Authorization",
   "Te", "Trailers", "Transfer-Encoding", "Upgrade"]

/-- `httpProtoSet(outreq)`: force `HTTP/1.1` and `Close = false`. -/
def httpProtoSet (outreq : OutRequest) : OutRequest :=
  { outreq with Proto := "HTTP/1.1", ProtoMajor := 1, ProtoMinor := 1, Close := false }

/-- `hopByHopHeaderRemove(outreq, req)` on the header map (at entry
`outreq.Header` and `req.Header` are the same map, and the one copy happens
before any deletion, so copying from `req.Header` is copying the current
map): walk `hopHeaders` in order; whenever `Get` of the name is non-empty,
copy the map once (flag `copiedHeaders`) and delete the name.  Returns the
final map and the `copiedHeaders` flag.  `hopStep` is one iteration of the
loop body; `hopByHopHeaderRemove` folds it over `hopHeaders`. -/
def hopStep (st : Header × Bool) (h : String) : Header × Bool :=
  let cur := st.1
  let copied := st.2
  if headerGet cur h ≠ "" then
    let cur := if !copied then CopyHeader cur else cur
    (headerDel cur h, true)
  else (cur, copied)

def hopByHopHeaderRemove (outHeader : Header) : Header × Bool :=
  hopHeaders.foldl hopStep (outHeader, false)

/-- The outbound-request construction of `ServeHTTP` (lines 643-650):
shallow copy of the inbound request, `httpProtoSet`, then
`hopByHopHeaderRemove`; the boolean reports whether the header map was
freshly copied (otherwise it is the inbound map itself). -/
def buildOutRequest (req : OutRequest) : OutRequest × Bool :=
  let outreq := req
  let outreq := httpProtoSet outreq
  let hb := hopByHopHeaderRemove outreq.Header
  ({ outreq with Header := hb.1 }, hb.2)

/-- `checkRequestWithoutBody(req)`: nil body and `EofReader` count as no
body; a spdy request body counts when it is at EOF; anything else has a
body. -/
def checkRequestWithoutBody (req : OutRequest) : Bool :=
  match req.Body with
  | .noBody => true
  | .eofReader => true
  | .spdyBody eof => eof
  | .otherBody => false

/-- `checkAllowRetry(retryLevel, outreq)`: retry only at level `RetryGet`
for a `GET` request without an entity body. -/
def checkAllowRetry (retryLevel : Nat) (outreq : OutRequest) : Bool :=
  if retryLevel == RetryGet then
    if outreq.Method == "GET" && checkRequestWithoutBody outreq then true
    else false
  else false

/-- The transport error classes distinguished by the `switch err.(type)`
of `clusterInvoke` (lines 318-363). -/
inductive RoundTripErr where
  | connectError
  | writeRequestError
  | readRespHeaderError
  | respHeaderTimeoutError
  | transportBrokenError
  | otherError
deriving DecidableEq, Repr

/-- The `allowRetry` value computed by that switch: `true` for a connect
error; `checkAllowRetry` for write-request, read-response-header,
response-header-timeout and transport-broken errors; the initial `false`
for anything else. -/
def allowRetryOf (e : RoundTripErr) (retryLevel : Nat) (outreq : OutRequest) : Bool :=
  match e with
  | .connectError => true
  | .writeRequestError => checkAllowRetry retryLevel outreq
  | .readRespHeaderError => checkAllowRetry retryLevel outreq
  | .respHeaderTimeoutError => checkAllowRetry retryLevel outreq
  | .transportBrokenError => checkAllowRetry retryLevel outreq
  | .otherError => false

/-- What one iteration of the `clusterInvoke` forwarding loop observes from
its environment: the balancer verdict, the `HANDLE_FORWARD` callback, and
the round trip to the backend. -/
inductive StepOutcome where
  | crossRetryBalance
  | balanceError
  | forwardFinish
  | roundTripOk
  | roundTripErr (e : RoundTripErr)

/-- The iteration structure of the `for i := 0; i < 20; i++` forwarding
loop of `clusterInvoke` (lines 223-372), counting the iterations executed
from index `i` on: `ErrBkCrossRetryBalance` continues, another balance
error breaks, a `FINISH` callback verdict returns, a successful round trip
breaks, and a failed one continues exactly when `allowRetry` holds. -/
def clusterInvokeIters (outcome : Nat → StepOutcome) (retryLevel : Nat)
    (outreq : OutRequest) (i : Nat) : Nat :=
  if _h : i < 20 then
    match outcome i with
    | .crossRetryBalance => 1 + clusterInvokeIters outcome retryLevel outreq (i + 1)
    | .balanceError => 1
    | .forwardFinish => 1
    | .roundTripOk => 1
    | .roundTripErr e =>
      if allowRetryOf e retryLevel outreq then
        1 + clusterInvokeIters outcome retryLevel outreq (i + 1)
      else 1
  else 0
termination_by 20 - i

end Proxy

namespace Ipdict

theorem getPair_cons_succ (x : IpPair) (t : List IpPair) (m : Nat) :
    getPair (x :: t) (m + 1) = getPair t m := rfl

theorem getPair_cons_zero (x : IpPair) (t : List IpPair) :
    getPair (x :: t) 0 = x := rfl

theorem getPair_of_length_le {l : List IpPair} {n : Nat} (h : l.length ≤ n) :
    getPair l n = ⟨0, 0⟩ := by
  induction l generalizing n with
  | nil => rfl
  | cons x t ih =>
    cases n with
    | zero => simp at h
    | succ m =>
      rw [getPair_cons_succ]
      exact ih (by simpa using h)

theorem getPair_set_self {l : List IpPair} {n : Nat} (h : n < l.length) (v : IpPair) :
    getPair (l.set n v) n = v := by
  induction l generalizing n with
  | nil => simp at h
  | cons x t ih =>
    cases n with
    | zero => rfl
    | succ m =>
      show getPair (t.set m v) m = v
      exact ih (by simpa using h) 

theorem getPair_set_ne {l : List IpPair} {m n : Nat} (h : m ≠ n) (v : IpPair) :
    getPair (l.set n v) m = getPair l m := by
  induction l generalizing m n with
  | nil => rfl
  | cons x t ih =>
    cases n with
    | zero =>
      cases m with
      | zero => exact absurd rfl h
      | succ m' => rfl
    | succ n' =>
      cases m with
      | zero => rfl
      | succ m' =>
        show getPair (t.set n' v) m' = getPair t m'
        exact ih (by omega)

theorem isSkip_tombPair : isSkip tombPair = true := rfl

theorem countP_set_dec {l : List IpPair} {n : Nat} {p : IpPair → Bool} {v : IpPair}
    (h : n < l.length) (hold : p (getPair l n) = true) (hnew : p v = false) :
    (l.set n v).countP p + 1 = l.countP p := by
  induction l generalizing n with
  | nil => simp at h
  | cons x t ih =>
    cases n with
    | zero =>
      simp only [List.set, List.countP_cons]
      rw [getPair_cons_zero] at hold
      simp [hold, hnew]
    | succ m =>
      simp only [List.set, List.countP_cons]
      rw [getPair_cons_succ] at hold
      have := ih (by simpa using h) hold
      omega

theorem countP_set_keep {l : List IpPair} {n : Nat} {p : IpPair → Bool} {v : IpPair}
    (hsame : p (getPair l n) = p v) :
    (l.set n v).countP p = l.countP p := by
  induction l generalizing n with
  | nil => rfl
  | cons x t ih =>
    cases n with
    | zero =>
      simp only [List.set, List.countP_cons]
      rw [getPair_cons_zero] at hsame
      simp [hsame]
    | succ m =>
      simp only [List.set, List.countP_cons]
      rw [getPair_cons_succ] at hsame
      rw [ih hsame]

theorem insPair_cons_of_le {x z : IpPair} {t : List IpPair}
    (h : z.startIP ≤ x.startIP) : insPair x (z :: t) = x :: z :: t := by
  simp [insPair, pairLess, h]

theorem insPair_cons_of_gt {x z : IpPair} {t : List IpPair}
    (h : x.startIP < z.startIP) : insPair x (z :: t) = z :: insPair x t := by
  have : pairLess x z = false := by
    simp only [pairLess, decide_eq_false_iff_not]
    omega
  simp [insPair, this]

theorem mem_insPair {x y : IpPair} {l : List IpPair} :
    y ∈ insPair x l ↔ y = x ∨ y ∈ l := by
  induction l with
  | nil => simp [insPair]
  | cons z t ih =>
    by_cases h : z.startIP ≤ x.startIP
    · rw [insPair_cons_of_le h]
      simp
    · rw [insPair_cons_of_gt (by omega)]
      simp only [List.mem_cons, ih]
      tauto

theorem insPair_perm (x : IpPair) (l : List IpPair) :
    (insPair x l).Perm (x :: l) := by
  induction l with
  | nil => simp [insPair]
  | cons z t ih =>
    by_cases h : z.startIP ≤ x.startIP
    · rw [insPair_cons_of_le h]
    · rw [insPair_cons_of_gt (by omega)]
      exact (List.Perm.cons z ih).trans (List.Perm.swap x z t)

theorem sortPairs_go_perm : ∀ (l acc : List IpPair),
    (l.foldl (fun a x => insPair x a) acc).Perm (l ++ acc)
  | [], _acc => by simp
  | x :: t, acc => by
    have h1 := sortPairs_go_perm t (insPair x acc)
    have h2 : (t ++ insPair x acc).Perm (t ++ (x :: acc)) :=
      List.Perm.append_left t (insPair_perm x acc)
    have h3 : (t ++ (x :: acc)).Perm (x :: (t ++ acc)) := List.perm_middle
    show (t.foldl (fun a x => insPair x a) (insPair x acc)).Perm ((x :: t) ++ acc)
    rw [List.cons_append]
    exact (h1.trans h2).trans h3

theorem sortPairs_perm (l : List IpPair) : (sortPairs l).Perm l := by
  simpa [sortPairs] using sortPairs_go_perm l []

theorem insPair_pairwise {x : IpPair} {l : List IpPair}
    (h : l.Pairwise (fun a b => b.startIP ≤ a.startIP)) :
    (insPair x l).Pairwise (fun a b => b.startIP ≤ a.startIP) := by
  induction l with
  | nil => simp [insPair]
  | cons z t ih =>
    rw [List.pairwise_cons] at h
    by_cases hle : z.startIP ≤ x.startIP
    · rw [insPair_cons_of_le hle]
      refine List.Pairwise.cons ?_ (List.Pairwise.cons h.1 h.2)
      intro y hy
      rcases List.mem_cons.mp hy with rfl | hy'
      · exact hle
      · exact le_trans (h.1 y hy') hle
    · rw [insPair_cons_of_gt (by omega)]
      refine List.Pairwise.cons ?_ (ih h.2)
      intro y hy
      rcases mem_insPair.mp hy with rfl | hy'
      · omega
      · exact h.1 y hy'

theorem sortPairs_go_sorted : ∀ (l acc : List IpPair),
    acc.Pairwise (fun a b => b.startIP ≤ a.startIP) →
    (l.foldl (fun a x => insPair x a) acc).Pairwise (fun a b => b.startIP ≤ a.startIP)
  | [], _, h => h
  | x :: t, acc, h => sortPairs_go_sorted t (insPair x acc) (insPair_pairwise h)

theorem sortPairs_sorted (l : List IpPair) :
    (sortPairs l).Pairwise (fun a b => b.startIP ≤ a.startIP) :=
  sortPairs_go_sorted l [] (List.Pairwise.nil)

theorem insPair_of_forall_lt {x : IpPair} {l : List IpPair}
    (h : ∀ y ∈ l, x.startIP < y.startIP) : insPair x l = l ++ [x] := by
  induction l with
  | nil => rfl
  | cons z t ih =>
    have hz := h z (by simp)
    rw [insPair_cons_of_gt hz, ih (fun y hy => h y (by simp [hy]))]
    simp

theorem sortPairs_eq_self {l : List IpPair}
    (h : l.Pairwise (fun a b => b.startIP < a.startIP)) : sortPairs l = l := by
  induction l using List.reverseRecOn with
  | nil => rfl
  | append_singleton t x ih =>
    rw [List.pairwise_append] at h
    have : sortPairs (t ++ [x]) = insPair x (sortPairs t) := by
      simp [sortPairs, List.foldl_append]
    rw [this, ih h.1, insPair_of_forall_lt]
    intro y hy
    exact h.2.2 y hy x (by simp)

end Ipdict

namespace Ipdict

theorem isSkip_false_iff {p : IpPair} :
    isSkip p = false ↔ p.endIP ≠ IPv6zero ∧ p.endIP ≠ IPv4zero := by
  simp [isSkip]

theorem tombK_spec : ∀ (fuel : Nat) (items : List IpPair) (k : Nat),
    (tombK items k fuel).1.length = items.length ∧
    (∀ q, q < k ∨ k + fuel ≤ q →
      getPair (tombK items k fuel).1 q = getPair items q) ∧
    (∀ q, k ≤ q → q < k + fuel →
      getPair (tombK items k fuel).1 q =
        if isSkip (getPair items q) then getPair items q else tombPair) ∧
    aliveCnt (tombK items k fuel).1 + (tombK items k fuel).2 = aliveCnt items := by
  intro fuel
  induction fuel with
  | zero =>
    intro items k
    refine ⟨rfl, fun q _ => rfl, fun q h1 h2 => by omega, by simp [tombK]⟩
  | succ fuel ih =>
    intro items k
    by_cases hsk : isSkip (getPair items k) = true
    · have e1 : (tombK items k (fuel + 1)).1 = (tombK items (k + 1) fuel).1 := by
        simp [tombK, hsk]
      have e2 : (tombK items k (fuel + 1)).2 = (tombK items (k + 1) fuel).2 := by
        simp [tombK, hsk]
      obtain ⟨l1, l2, l3, l4⟩ := ih items (k + 1)
      rw [e1, e2]
      refine ⟨l1, ?_, ?_, l4⟩
      · intro q hq
        exact l2 q (by omega)
      · intro q hq1 hq2
        by_cases hqk : q = k
        · rw [hqk, l2 k (by omega), if_pos hsk]
        · exact l3 q (by omega) (by omega)
    · rw [Bool.not_eq_true] at hsk
      have hk : k < items.length := by
        by_contra hc
        push_neg at hc
        rw [getPair_of_length_le hc] at hsk
        simp [isSkip, IPv6zero] at hsk
      set items' := items.set k ⟨IPv6zero, IPv6zero⟩ with hitems'
      have e1 : (tombK items k (fuel + 1)).1 = (tombK items' (k + 1) fuel).1 := by
        simp [tombK, hsk]
      have e2 : (tombK items k (fuel + 1)).2 = 1 + (tombK items' (k + 1) fuel).2 := by
        simp [tombK, hsk]
      obtain ⟨l1, l2, l3, l4⟩ := ih items' (k + 1)
      have hlen' : items'.length = items.length := by
        simp [hitems']
      have hk' : getPair items' k = tombPair := getPair_set_self hk _
      have hne : ∀ q, q ≠ k → getPair items' q = getPair items q := by
        intro q hq
        exact getPair_set_ne hq _
      rw [e1, e2]
      refine ⟨l1.trans hlen', ?_, ?_, ?_⟩
      · intro q hq
        rw [l2 q (by omega), hne q (by omega)]
      · intro q hq1 hq2
        by_cases hqk : q = k
        · rw [hqk, l2 k (by omega), hk', if_neg (by simp [hsk])]
        · rw [l3 q (by omega) (by omega), hne q (by omega)]
      · have hdec : aliveCnt items' + 1 = aliveCnt items := by
          refine countP_set_dec hk ?_ ?_
          · simp [hsk]
          · simp [isSkip, IPv6zero]
        omega

end Ipdict

namespace Ipdict

theorem mergeInner_succ (items : List IpPair) (i j fuel : Nat) :
    mergeInner items i j (fuel + 1) =
      ((mergeInner
          (if (getPair items j).endIP == IPv6zero
              || (getPair items i).endIP == IPv4zero then (items, 0)
            else checkMerge items i j).1 i (j + 1) fuel).1,
        (if (getPair items j).endIP == IPv6zero
            || (getPair items i).endIP == IPv4zero then (items, 0)
          else checkMerge items i j).2
          + (mergeInner
              (if (getPair items j).endIP == IPv6zero
                  || (getPair items i).endIP == IPv4zero then (items, 0)
                else checkMerge items i j).1 i (j + 1) fuel).2) := rfl

theorem mergeInner_spec : ∀ (fuel : Nat) (items : List IpPair) (i j : Nat),
    j + fuel = items.length →
    i < j →
    isSkip (getPair items i) = false →
    (getPair items i).startIP ≤ (getPair items i).endIP →
    (∀ q, i < q → q < items.length →
      getPair items q = tombPair ∨ goodPair (getPair items q)) →
    (∀ q, j ≤ q → q < items.length → isSkip (getPair items q) = false →
      (getPair items q).startIP ≤ (getPair items i).startIP) →
    (∀ p q, i < p → p < q → q < items.length →
      isSkip (getPair items p) = false → isSkip (getPair items q) = false →
      (getPair items q).startIP ≤ (getPair items p).startIP) →
    (∀ q, i < q → q < j → isSkip (getPair items q) = false →
      (getPair items q).endIP < (getPair items i).startIP) →
    (mergeInner items i j fuel).1.length = items.length ∧
    (∀ q, q < i → getPair (mergeInner items i j fuel).1 q = getPair items q) ∧
    isSkip (getPair (mergeInner items i j fuel).1 i) = false ∧
    (getPair (mergeInner items i j fuel).1 i).startIP
      ≤ (getPair (mergeInner items i j fuel).1 i).endIP ∧
    ((getPair (mergeInner items i j fuel).1 i).endIP = (getPair items i).endIP ∨
      ∃ q, i < q ∧ q < items.length ∧ isSkip (getPair items q) = false ∧
        (getPair (mergeInner items i j fuel).1 i).endIP = (getPair items q).endIP) ∧
    (∀ q, i < q → q < items.length →
      getPair (mergeInner items i j fuel).1 q = getPair items q ∨
        getPair (mergeInner items i j fuel).1 q = tombPair) ∧
    (∀ q, i < q → q < items.length →
      isSkip (getPair (mergeInner items i j fuel).1 q) = false →
      (getPair (mergeInner items i j fuel).1 q).endIP
        < (getPair (mergeInner items i j fuel).1 i).startIP) ∧
    aliveCnt (mergeInner items i j fuel).1 + (mergeInner items i j fuel).2
      = aliveCnt items := by
  intro fuel
  induction fuel with
  | zero =>
    intro items i j hlen hij hHead hHeadLe hTail hHeadGe hSorted hPassed
    have hmi : mergeInner items i j 0 = (items, 0) := rfl
    rw [hmi]
    refine ⟨rfl, fun q _ => rfl, hHead, hHeadLe, Or.inl rfl,
      fun q _ _ => Or.inl rfl, ?_, by simp⟩
    intro q hq1 hq2 halive
    exact hPassed q hq1 (by omega) halive
  | succ fuel ih =>
    intro items i j hlen hij hHead hHeadLe hTail hHeadGe hSorted hPassed
    have hjL : j < items.length := by omega
    have hiL : i < items.length := by omega
    have hHead' := isSkip_false_iff.mp hHead
    have hcondI : ((getPair items i).endIP == IPv4zero) = false := by
      simp [hHead'.2]
    by_cases hj0 : (getPair items j).endIP = IPv6zero
    · -- the source's skip test fires: nothing happens at j
      have hcond : ((getPair items j).endIP == IPv6zero
          || (getPair items i).endIP == IPv4zero) = true := by
        simp [hj0]
      have hs : (if ((getPair items j).endIP == IPv6zero
          || (getPair items i).endIP == IPv4zero) then (items, (0 : Nat))
          else checkMerge items i j) = (items, 0) := by rw [hcond]; rfl
      have e1 : (mergeInner items i j (fuel + 1)).1
          = (mergeInner items i (j + 1) fuel).1 := by
        rw [mergeInner_succ, hs]
      have e2 : (mergeInner items i j (fuel + 1)).2
          = (mergeInner items i (j + 1) fuel).2 := by
        rw [mergeInner_succ, hs]
        simp
      obtain ⟨c1, c2, c3, c4, c5, c6, c7, c8⟩ :=
        ih items i (j + 1) (by omega) (by omega) hHead hHeadLe hTail
          (fun q hq1 hq2 => hHeadGe q (by omega) hq2)
          hSorted
          (by
            intro q hq1 hq2 halive
            by_cases hqj : q = j
            · rw [hqj] at halive
              rw [isSkip_false_iff] at halive
              exact absurd hj0 halive.1
            · exact hPassed q hq1 (by omega) halive)
      rw [e1, e2]
      exact ⟨c1, c2, c3, c4, c5, c6, c7, c8⟩
    · -- j is not a zeroed slot, so by the tail shape it is a live good range
      have hGj : goodPair (getPair items j) := by
        rcases hTail j hij hjL with h | h
        · exact absurd (by rw [h]; rfl) hj0
        · exact h
      have hjAlive : isSkip (getPair items j) = false := hGj.2
      have hcond : ((getPair items j).endIP == IPv6zero
          || (getPair items i).endIP == IPv4zero) = false := by
        simp [hj0, hHead'.2]
      have hs : (if ((getPair items j).endIP == IPv6zero
          || (getPair items i).endIP == IPv4zero) then (items, (0 : Nat))
          else checkMerge items i j) = checkMerge items i j := by rw [hcond]; rfl
      by_cases hcm : (getPair items i).startIP ≤ (getPair items j).endIP
      · -- checkMerge absorbs j into the head and tombstones (i, j)
        have hcm2 : checkMerge items i j =
            ((tombK ((items.set i
                ⟨(getPair items j).startIP,
                  if (getPair items i).endIP ≤ (getPair items j).endIP
                  then (getPair items j).endIP else (getPair items i).endIP⟩).set j
                ⟨IPv6zero, IPv6zero⟩) (i + 1) (j - (i + 1))).1,
              1 + (tombK ((items.set i
                ⟨(getPair items j).startIP,
                  if (getPair items i).endIP ≤ (getPair items j).endIP
                  then (getPair items j).endIP else (getPair items i).endIP⟩).set j
                ⟨IPv6zero, IPv6zero⟩) (i + 1) (j - (i + 1))).2) := by
          rw [checkMerge, if_pos hcm]
        set nEnd := if (getPair items i).endIP ≤ (getPair items j).endIP
          then (getPair items j).endIP else (getPair items i).endIP with hnE
        set items2 := (items.set i ⟨(getPair items j).startIP, nEnd⟩).set j
          (⟨IPv6zero, IPv6zero⟩ : IpPair) with hitems2
        have e1 : (mergeInner items i j (fuel + 1)).1
            = (mergeInner (tombK items2 (i + 1) (j - (i + 1))).1 i (j + 1) fuel).1 := by
          rw [mergeInner_succ, hs, hcm2]
        have e2 : (mergeInner items i j (fuel + 1)).2
            = (1 + (tombK items2 (i + 1) (j - (i + 1))).2)
              + (mergeInner (tombK items2 (i + 1) (j - (i + 1))).1 i (j + 1) fuel).2 := by
          rw [mergeInner_succ, hs, hcm2]
        have hlen2 : items2.length = items.length := by
          rw [hitems2]
          simp
        have h2i : getPair items2 i = ⟨(getPair items j).startIP, nEnd⟩ := by
          rw [hitems2, getPair_set_ne (by omega : i ≠ j)]
          exact getPair_set_self hiL _
        have h2j : getPair items2 j = tombPair := by
          rw [hitems2]
          exact getPair_set_self (by simpa using hjL) _
        have h2q : ∀ q, q ≠ i → q ≠ j → getPair items2 q = getPair items q := by
          intro q hq1 hq2
          rw [hitems2, getPair_set_ne hq2, getPair_set_ne hq1]
        obtain ⟨t1, t2, t3, t4⟩ := tombK_spec (j - (i + 1)) items2 (i + 1)
        have hTlen : (tombK items2 (i + 1) (j - (i + 1))).1.length = items.length :=
          t1.trans hlen2
        have hTi : getPair (tombK items2 (i + 1) (j - (i + 1))).1 i
            = ⟨(getPair items j).startIP, nEnd⟩ := by
          rw [t2 i (Or.inl (by omega)), h2i]
        have hTj : getPair (tombK items2 (i + 1) (j - (i + 1))).1 j = tombPair := by
          rw [t2 j (Or.inr (by omega)), h2j]
        have hTlow : ∀ q, q < i →
            getPair (tombK items2 (i + 1) (j - (i + 1))).1 q = getPair items q := by
          intro q hq
          rw [t2 q (Or.inl (by omega)), h2q q (by omega) (by omega)]
        have hThigh : ∀ q, j < q →
            getPair (tombK items2 (i + 1) (j - (i + 1))).1 q = getPair items q := by
          intro q hq
          rw [t2 q (Or.inr (by omega)), h2q q (by omega) (by omega)]
        have hTmid : ∀ q, i < q → q < j →
            getPair (tombK items2 (i + 1) (j - (i + 1))).1 q = getPair items q ∨
              getPair (tombK items2 (i + 1) (j - (i + 1))).1 q = tombPair := by
          intro q h1 h2
          rw [t3 q (by omega) (by omega)]
          by_cases hsq : isSkip (getPair items2 q) = true
          · rw [if_pos hsq, h2q q (by omega) (by omega)]
            exact Or.inl rfl
          · rw [if_neg hsq]
            exact Or.inr rfl
        have hTmidDead : ∀ q, i < q → q ≤ j →
            isSkip (getPair (tombK items2 (i + 1) (j - (i + 1))).1 q) = true := by
          intro q h1 h2
          by_cases hqj : q = j
          · rw [hqj, hTj]
            rfl
          · rw [t3 q (by omega) (by omega)]
            by_cases hsq : isSkip (getPair items2 q) = true
            · rw [if_pos hsq]
              exact hsq
            · rw [if_neg hsq]
              rfl
        have hGj' := isSkip_false_iff.mp hjAlive
        have hnEnd : nEnd = (getPair items i).endIP ∨ nEnd = (getPair items j).endIP := by
          rw [hnE]
          by_cases hee : (getPair items i).endIP ≤ (getPair items j).endIP
          · rw [if_pos hee]
            exact Or.inr rfl
          · rw [if_neg hee]
            exact Or.inl rfl
        have hnEndSkip : nEnd ≠ IPv6zero ∧ nEnd ≠ IPv4zero := by
          rcases hnEnd with h | h
          · rw [h]; exact hHead'
          · rw [h]; exact hGj'
        have hTiAlive : isSkip (getPair (tombK items2 (i + 1) (j - (i + 1))).1 i) = false := by
          rw [hTi, isSkip_false_iff]
          exact hnEndSkip
        have hTile : (getPair (tombK items2 (i + 1) (j - (i + 1))).1 i).startIP
            ≤ (getPair (tombK items2 (i + 1) (j - (i + 1))).1 i).endIP := by
          rw [hTi]
          show (getPair items j).startIP ≤ nEnd
          rw [hnE]
          have := hGj.1
          by_cases hee : (getPair items i).endIP ≤ (getPair items j).endIP
          · rw [if_pos hee]
            exact this
          · rw [if_neg hee]
            omega
        obtain ⟨c1, c2, c3, c4, c5, c6, c7, c8⟩ :=
          ih (tombK items2 (i + 1) (j - (i + 1))).1 i (j + 1)
            (by rw [hTlen]; omega) (by omega) hTiAlive hTile
            (by
              intro q h1 h2
              rw [hTlen] at h2
              by_cases hqj : q < j
              · rcases hTmid q h1 hqj with he | he
                · rw [he]
                  exact hTail q h1 h2
                · rw [he]
                  exact Or.inl rfl
              · by_cases hqj2 : q = j
                · rw [hqj2, hTj]
                  exact Or.inl rfl
                · rw [hThigh q (by omega)]
                  exact hTail q (by omega) h2)
            (by
              intro q hq1 hq2 halive
              rw [hTlen] at hq2
              have hgt : j < q := by omega
              rw [hThigh q hgt] at halive ⊢
              rw [hTi]
              exact hSorted j q hij hgt hq2 hjAlive halive)
            (by
              intro p q hp hpq hq halivep haliveq
              rw [hTlen] at hq
              have hTp : getPair (tombK items2 (i + 1) (j - (i + 1))).1 p
                  = getPair items p := by
                by_cases hpj : p ≤ j
                · exact absurd (hTmidDead p hp hpj) (by simp [halivep])
                · exact hThigh p (by omega)
              have hTq : getPair (tombK items2 (i + 1) (j - (i + 1))).1 q
                  = getPair items q := by
                by_cases hqj : q ≤ j
                · exact absurd (hTmidDead q (by omega) hqj) (by simp [haliveq])
                · exact hThigh q (by omega)
              rw [hTp] at halivep
              rw [hTq] at haliveq
              rw [hTp, hTq]
              exact hSorted p q hp hpq hq halivep haliveq)
            (by
              intro q h1 h2 halive
              exact absurd (hTmidDead q h1 (by omega)) (by simp [halive]))
        rw [e1, e2]
        have hTlen' := hTlen
        refine ⟨c1.trans hTlen, ?_, c3, c4, ?_, ?_, ?_, ?_⟩
        · intro q hq
          rw [c2 q hq, hTlow q hq]
        · rcases c5 with h | ⟨q, hq1, hq2, halive, he⟩
          · rw [hTi] at h
            rcases hnEnd with h2 | h2
            · exact Or.inl (by rw [h]; exact h2)
            · exact Or.inr ⟨j, hij, hjL, hjAlive, by rw [h]; exact h2⟩
          · rw [hTlen] at hq2
            have hTq : getPair (tombK items2 (i + 1) (j - (i + 1))).1 q
                = getPair items q := by
              by_cases hqj : q ≤ j
              · exact absurd (hTmidDead q hq1 hqj) (by simp [halive])
              · exact hThigh q (by omega)
            rw [hTq] at halive he
            exact Or.inr ⟨q, hq1, hq2, halive, he⟩
        · intro q h1 h2
          rcases c6 q h1 (by rw [hTlen]; exact h2) with h | h
          · by_cases hqj : q < j
            · rcases hTmid q h1 hqj with he | he
              · rw [h, he]
                exact Or.inl rfl
              · rw [h, he]
                exact Or.inr rfl
            · by_cases hqj2 : q = j
              · rw [h, hqj2, hTj]
                exact Or.inr rfl
              · rw [h, hThigh q (by omega)]
                exact Or.inl rfl
          · exact Or.inr h
        · intro q h1 h2 halive
          exact c7 q h1 (by rw [hTlen]; exact h2) halive
        · have hkeep : aliveCnt (items.set i ⟨(getPair items j).startIP, nEnd⟩)
              = aliveCnt items := by
            refine countP_set_keep ?_
            have h1 : isSkip (getPair items i) = false := hHead
            have h2 : isSkip (⟨(getPair items j).startIP, nEnd⟩ : IpPair) = false := by
              rw [isSkip_false_iff]
              exact hnEndSkip
            rw [h1, h2]
          have hdec : aliveCnt items2 + 1
              = aliveCnt (items.set i ⟨(getPair items j).startIP, nEnd⟩) := by
            rw [hitems2]
            refine countP_set_dec (by simpa using hjL) ?_ ?_
            · rw [getPair_set_ne (by omega : j ≠ i)]
              simp [hjAlive]
            · simp [isSkip, IPv6zero]
          omega

      · -- no overlap with the head: checkMerge does nothing
        have hcm2 : checkMerge items i j = (items, 0) := by
          rw [checkMerge, if_neg hcm]
        have e1 : (mergeInner items i j (fuel + 1)).1
            = (mergeInner items i (j + 1) fuel).1 := by
          rw [mergeInner_succ, hs, hcm2]
        have e2 : (mergeInner items i j (fuel + 1)).2
            = (mergeInner items i (j + 1) fuel).2 := by
          rw [mergeInner_succ, hs, hcm2]
          simp
        obtain ⟨c1, c2, c3, c4, c5, c6, c7, c8⟩ :=
          ih items i (j + 1) (by omega) (by omega) hHead hHeadLe hTail
            (fun q hq1 hq2 => hHeadGe q (by omega) hq2)
            hSorted
            (by
              intro q hq1 hq2 halive
              by_cases hqj : q = j
              · rw [hqj]
                omega
              · exact hPassed q hq1 (by omega) halive)
        rw [e1, e2]
        exact ⟨c1, c2, c3, c4, c5, c6, c7, c8⟩

end Ipdict

namespace Ipdict

theorem mergeOuter_succ (items : List IpPair) (i fuel : Nat) :
    mergeOuter items i (fuel + 1) =
      ((mergeOuter
          (if isSkip (getPair items i) then (items, 0)
            else mergeInner items i (i + 1) (items.length - (i + 1))).1 (i + 1) fuel).1,
        (if isSkip (getPair items i) then (items, 0)
          else mergeInner items i (i + 1) (items.length - (i + 1))).2
          + (mergeOuter
              (if isSkip (getPair items i) then (items, 0)
                else mergeInner items i (i + 1) (items.length - (i + 1))).1
              (i + 1) fuel).2) := rfl

theorem mergeOuter_spec : ∀ (fuel : Nat) (items : List IpPair) (i : Nat),
    i + fuel + 1 = items.length →
    (∀ q, q < items.length →
      getPair items q = tombPair ∨ goodPair (getPair items q)) →
    (∀ p q, p < q → q < items.length → p < i →
      isSkip (getPair items p) = false → isSkip (getPair items q) = false →
      (getPair items q).endIP < (getPair items p).startIP) →
    (∀ p q, i ≤ p → p < q → q < items.length →
      isSkip (getPair items p) = false → isSkip (getPair items q) = false →
      (getPair items q).startIP ≤ (getPair items p).startIP) →
    (mergeOuter items i fuel).1.length = items.length ∧
    (∀ q, q < items.length →
      getPair (mergeOuter items i fuel).1 q = tombPair ∨
        goodPair (getPair (mergeOuter items i fuel).1 q)) ∧
    (∀ p q, p < q → q < items.length →
      isSkip (getPair (mergeOuter items i fuel).1 p) = false →
      isSkip (getPair (mergeOuter items i fuel).1 q) = false →
      (getPair (mergeOuter items i fuel).1 q).endIP
        < (getPair (mergeOuter items i fuel).1 p).startIP) ∧
    aliveCnt (mergeOuter items i fuel).1 + (mergeOuter items i fuel).2
      = aliveCnt items := by
  intro fuel
  induction fuel with
  | zero =>
    intro items i hlen hAll hProc hSorted
    have hmo : mergeOuter items i 0 = (items, 0) := rfl
    rw [hmo]
    refine ⟨rfl, hAll, ?_, by simp⟩
    intro p q hpq hq hap haq
    exact hProc p q hpq hq (by omega) hap haq
  | succ fuel ih =>
    intro items i hlen hAll hProc hSorted
    have hiL : i < items.length := by omega
    by_cases hskip : isSkip (getPair items i) = true
    · have hs : (if isSkip (getPair items i) then (items, (0 : Nat))
          else mergeInner items i (i + 1) (items.length - (i + 1))) = (items, 0) := by
        rw [hskip]; rfl
      have e1 : (mergeOuter items i (fuel + 1)).1
          = (mergeOuter items (i + 1) fuel).1 := by
        rw [mergeOuter_succ, hs]
      have e2 : (mergeOuter items i (fuel + 1)).2
          = (mergeOuter items (i + 1) fuel).2 := by
        rw [mergeOuter_succ, hs]
        simp
      obtain ⟨o1, o2, o3, o4⟩ :=
        ih items (i + 1) (by omega) hAll
          (by
            intro p q hpq hq hpi hap haq
            by_cases hpi' : p = i
            · rw [hpi'] at hap
              rw [hap] at hskip
              exact absurd hskip (by simp)
            · exact hProc p q hpq hq (by omega) hap haq)
          (fun p q hp hpq hq hap haq => hSorted p q (by omega) hpq hq hap haq)
      rw [e1, e2]
      exact ⟨o1, o2, o3, o4⟩
    · rw [Bool.not_eq_true] at hskip
      have hGood : goodPair (getPair items i) := by
        rcases hAll i hiL with h | h
        · rw [h] at hskip
          exact absurd hskip (by simp [isSkip, IPv6zero, tombPair])
        · exact h
      have hs : (if isSkip (getPair items i) then (items, (0 : Nat))
          else mergeInner items i (i + 1) (items.length - (i + 1)))
          = mergeInner items i (i + 1) (items.length - (i + 1)) := by
        rw [hskip]; rfl
      have e1 : (mergeOuter items i (fuel + 1)).1
          = (mergeOuter (mergeInner items i (i + 1) (items.length - (i + 1))).1
              (i + 1) fuel).1 := by
        rw [mergeOuter_succ, hs]
      have e2 : (mergeOuter items i (fuel + 1)).2
          = (mergeInner items i (i + 1) (items.length - (i + 1))).2
            + (mergeOuter (mergeInner items i (i + 1) (items.length - (i + 1))).1
                (i + 1) fuel).2 := by
        rw [mergeOuter_succ, hs]
      obtain ⟨c1, c2, c3, c4, c5, c6, c7, c8⟩ :=
        mergeInner_spec (items.length - (i + 1)) items i (i + 1)
          (by omega) (by omega) hskip hGood.1
          (fun q hq1 hq2 => hAll q hq2)
          (by
            intro q hq1 hq2 haq
            exact hSorted i q (le_refl i) (by omega) hq2 hskip haq)
          (by
            intro p q hp hpq hq hap haq
            exact hSorted p q (by omega) hpq hq hap haq)
          (by
            intro q hq1 hq2 _
            omega)
      obtain ⟨o1, o2, o3, o4⟩ :=
        ih (mergeInner items i (i + 1) (items.length - (i + 1))).1 (i + 1)
          (by rw [c1]; omega)
          (by
            intro q hq
            rw [c1] at hq
            by_cases hqi : q < i
            · rw [c2 q hqi]
              exact hAll q hq
            · by_cases hqi2 : q = i
              · rw [hqi2]
                exact Or.inr ⟨c4, c3⟩
              · rcases c6 q (by omega) hq with h | h
                · rw [h]
                  exact hAll q hq
                · rw [h]
                  exact Or.inl rfl)
          (by
            intro p q hpq hq hpi hap haq
            rw [c1] at hq
            by_cases hpi' : p < i
            · rw [c2 p hpi'] at hap ⊢
              by_cases hqi : q < i
              · rw [c2 q hqi] at haq ⊢
                exact hProc p q hpq hq hpi' hap haq
              · by_cases hqi2 : q = i
                · rw [hqi2] at haq ⊢
                  rcases c5 with h | ⟨r, hr1, hr2, hr3, h⟩
                  · rw [h]
                    exact hProc p i (by omega) hiL hpi' hap hskip
                  · rw [h]
                    exact hProc p r (by omega) hr2 hpi' hap hr3
                · have hqi3 : i < q := by omega
                  rcases c6 q hqi3 hq with h | h
                  · rw [h] at haq ⊢
                    exact hProc p q hpq hq hpi' hap haq
                  · rw [h] at haq
                    exact absurd haq (by simp [isSkip, IPv6zero, tombPair])
            · have hpi2 : p = i := by omega
              rw [hpi2]
              rw [hpi2] at hpq
              exact c7 q hpq hq haq)
          (by
            intro p q hp hpq hq hap haq
            rw [c1] at hq
            have hip : i < p := by omega
            rcases c6 p hip (by omega) with h | h
            · rw [h] at hap ⊢
              rcases c6 q (by omega) hq with h2 | h2
              · rw [h2] at haq ⊢
                exact hSorted p q (by omega) hpq hq hap haq
              · rw [h2] at haq
                exact absurd haq (by simp [isSkip, IPv6zero, tombPair])
            · rw [h] at hap
              exact absurd hap (by simp [isSkip, IPv6zero, tombPair]))
      rw [e1, e2]
      have hL : (mergeInner items i (i + 1) (items.length - (i + 1))).1.length
          = items.length := c1
      refine ⟨o1.trans hL, ?_, ?_, ?_⟩
      · intro q hq
        exact o2 q (by rw [hL]; exact hq)
      · intro p q hpq hq hap haq
        exact o3 p q hpq (by rw [hL]; exact hq) hap haq
      · omega

end Ipdict

namespace Ipdict

theorem getPair_eq_getElem {l : List IpPair} {n : Nat} (h : n < l.length) :
    getPair l n = l[n] := by
  induction l generalizing n with
  | nil => simp at h
  | cons x t ih =>
    cases n with
    | zero => rfl
    | succ m =>
      rw [getPair_cons_succ]
      simpa using ih (by simpa using h)

theorem getPair_mem {l : List IpPair} {n : Nat} (h : n < l.length) :
    getPair l n ∈ l := by
  rw [getPair_eq_getElem h]
  exact List.getElem_mem h

theorem pairwise_iff_getPair {l : List IpPair} {R : IpPair → IpPair → Prop} :
    l.Pairwise R ↔
      ∀ p q, p < q → q < l.length → R (getPair l p) (getPair l q) := by
  rw [List.pairwise_iff_getElem]
  constructor
  · intro h p q hpq hq
    rw [getPair_eq_getElem (by omega), getPair_eq_getElem hq]
    exact h p q (by omega) hq hpq
  · intro h p q hp hq hpq
    have := h p q hpq hq
    rwa [getPair_eq_getElem (by omega), getPair_eq_getElem hq] at this

theorem aliveCnt_eq_length {l : List IpPair} (h : ∀ p ∈ l, isSkip p = false) :
    aliveCnt l = l.length := by
  rw [aliveCnt]
  rw [List.countP_eq_length]
  intro a ha
  simp [h a ha]

theorem mergeItems_spec {items : List IpPair}
    (hgood : ∀ p ∈ items, goodPair p)
    (hsorted : items.Pairwise (fun a b => b.startIP ≤ a.startIP)) :
    (mergeItems items).1.length = items.length ∧
    (∀ p ∈ (mergeItems items).1, tombOrGood p) ∧
    ((mergeItems items).1.Pairwise (fun a b =>
      isSkip a = false → isSkip b = false → b.endIP < a.startIP)) ∧
    aliveCnt (mergeItems items).1 + (mergeItems items).2 = items.length := by
  have hcnt : aliveCnt items = items.length :=
    aliveCnt_eq_length (fun p hp => (hgood p hp).2)
  rcases items with _ | ⟨x, t⟩
  · exact ⟨rfl, by simp [mergeItems, mergeOuter], by simp [mergeItems, mergeOuter], by
      simp [mergeItems, mergeOuter, aliveCnt]⟩
  · set items := x :: t with hitems
    have hlen1 : 1 ≤ items.length := by simp [hitems]
    obtain ⟨o1, o2, o3, o4⟩ :=
      mergeOuter_spec (items.length - 1) items 0
        (by omega)
        (fun q hq => Or.inr (hgood (getPair items q) (getPair_mem hq)))
        (by intro p q _ _ hpi _ _; omega)
        (by
          intro p q _ hpq hq _ _
          exact (pairwise_iff_getPair.mp hsorted) p q hpq hq)
    have hmi : mergeItems items = mergeOuter items 0 (items.length - 1) := rfl
    rw [hmi]
    refine ⟨o1, ?_, ?_, by omega⟩
    · intro p hp
      obtain ⟨n, hn, rfl⟩ := List.mem_iff_getElem.mp hp
      rw [← getPair_eq_getElem hn]
      exact o2 n (by omega)
    · rw [pairwise_iff_getPair]
      intro p q hpq hq
      intro hap haq
      exact o3 p q hpq (by omega) hap haq

/-- In a weakly descending list every positive-start entry precedes every
zero-start entry. -/
theorem sorted_split_pos {l : List IpPair}
    (h : l.Pairwise (fun a b => b.startIP ≤ a.startIP)) :
    ∃ lpos lzero, l = lpos ++ lzero ∧
      (∀ x ∈ lpos, 0 < x.startIP) ∧ (∀ x ∈ lzero, x.startIP = 0) := by
  induction l with
  | nil => exact ⟨[], [], rfl, by simp, by simp⟩
  | cons x t ih =>
    rw [List.pairwise_cons] at h
    by_cases hx : 0 < x.startIP
    · obtain ⟨lpos, lzero, heq, hpos, hzero⟩ := ih h.2
      refine ⟨x :: lpos, lzero, by simp [heq], ?_, hzero⟩
      intro y hy
      rcases List.mem_cons.mp hy with rfl | hy'
      · exact hx
      · exact hpos y hy'
    · refine ⟨[], x :: t, rfl, by simp, ?_⟩
      intro y hy
      rcases List.mem_cons.mp hy with rfl | hy'
      · omega
      · have := h.1 y hy'
        omega

/-- A strictly descending list has at most one entry with a given start,
in particular at most one zero-start entry. -/
theorem filter_zero_len_le_one {l : List IpPair}
    (h : l.Pairwise (fun a b => b.startIP < a.startIP)) :
    (l.filter (fun p => p.startIP == 0)).length ≤ 1 := by
  induction l with
  | nil => simp
  | cons x t ih =>
    rw [List.pairwise_cons] at h
    by_cases hx : x.startIP = 0
    · have : t.filter (fun p => p.startIP == 0) = [] := by
        rw [List.filter_eq_nil_iff]
        intro a ha
        have := h.1 a ha
        simp
        omega
      simp [List.filter_cons, hx, this]
    · have : (fun p => p.startIP == 0) x = false := by simp [hx]
      rw [List.filter_cons_of_neg (by simp [hx])]
      exact ih h.2

/-- Extract the pairwise relation between two members of a strictly
descending list from the order of their keys. -/
theorem rel_of_pairwise_of_lt {l : List IpPair} {S : IpPair → IpPair → Prop}
    (hS : l.Pairwise S) (hD : l.Pairwise (fun a b => b.startIP < a.startIP))
    {x z : IpPair} (hx : x ∈ l) (hz : z ∈ l) (hlt : z.startIP < x.startIP) :
    S x z := by
  obtain ⟨ix, hix, rfl⟩ := List.mem_iff_getElem.mp hx
  obtain ⟨iz, hiz, rfl⟩ := List.mem_iff_getElem.mp hz
  rw [List.pairwise_iff_getElem] at hS hD
  rcases lt_trichotomy ix iz with h | h | h
  · exact hS ix iz hix hiz h
  · subst h
    omega
  · have := hD iz ix hiz hix h
    omega

end Ipdict

namespace Ipdict

theorem length_filter_pos_add (l : List IpPair) :
    (l.filter (fun p => !(p.startIP == 0))).length
      + (l.filter (fun p => p.startIP == 0)).length = l.length := by
  induction l with
  | nil => simp
  | cons x t ih =>
    by_cases hx : x.startIP = 0
    · rw [List.filter_cons_of_neg (by simp [hx]), List.filter_cons_of_pos (by simp [hx])]
      simp only [List.length_cons]
      omega
    · rw [List.filter_cons_of_pos (by simp [hx]), List.filter_cons_of_neg (by simp [hx])]
      simp only [List.length_cons]
      omega

theorem ipdictSort_normalized {items : List IpPair}
    (hgood : ∀ p ∈ items, goodPair p) : normalized (ipdictSort items) := by
  have hs1good : ∀ p ∈ sortPairs items, goodPair p :=
    fun p hp => hgood p ((sortPairs_perm items).subset hp)
  have hs1sorted := sortPairs_sorted items
  obtain ⟨m1, m2, m3, m4⟩ := mergeItems_spec hs1good hs1sorted
  have hsort : ipdictSort items =
      (sortPairs (mergeItems (sortPairs items)).1).take
        ((sortPairs items).length - (mergeItems (sortPairs items)).2) := rfl
  rw [hsort]
  set s1 := sortPairs items with hs1def
  set R := (mergeItems s1).1 with hRdef
  set m := (mergeItems s1).2 with hmdef
  set A := R.filter (fun p => !isSkip p) with hAdef
  have hAlen : A.length = aliveCnt R := by
    rw [hAdef, aliveCnt, List.countP_eq_length_filter]
  have hAmem : ∀ p ∈ A, isSkip p = false ∧ tombOrGood p := by
    intro p hp
    refine ⟨by simpa using (List.mem_filter.mp hp).2, m2 p (List.mem_filter.mp hp).1⟩
  have hAgood : ∀ p ∈ A, goodPair p := by
    intro p hp
    rcases (hAmem p hp).2 with h | h
    · have := (hAmem p hp).1
      rw [h] at this
      exact absurd this (by simp [isSkip, tombPair, IPv6zero])
    · exact h
  have hAsep : A.Pairwise (fun a b => b.endIP < a.startIP) := by
    have h1 : A.Pairwise (fun a b =>
        isSkip a = false → isSkip b = false → b.endIP < a.startIP) :=
      m3.filter _
    exact h1.imp_of_mem (fun {a b} ha hb h => h (hAmem a ha).1 (hAmem b hb).1)
  have hAdesc : A.Pairwise (fun a b => b.startIP < a.startIP) :=
    hAsep.imp_of_mem (fun {a b} ha hb h => lt_of_le_of_lt (hAgood b hb).1 h)
  have hs2perm : (sortPairs R).Perm R := sortPairs_perm R
  have hs2sorted := sortPairs_sorted R
  obtain ⟨lpos, lzero, hsplit, hposAll, hzeroAll⟩ := sorted_split_pos hs2sorted
  have hfl : (sortPairs R).filter (fun p => !(p.startIP == 0)) = lpos := by
    rw [hsplit, List.filter_append]
    have h1 : lpos.filter (fun p => !(p.startIP == 0)) = lpos := by
      rw [List.filter_eq_self]
      intro a ha
      have := hposAll a ha
      simp
      omega
    have h2 : lzero.filter (fun p => !(p.startIP == 0)) = [] := by
      rw [List.filter_eq_nil_iff]
      intro a ha
      simp [hzeroAll a ha]
    rw [h1, h2, List.append_nil]
  have hRA : R.filter (fun p => !(p.startIP == 0))
      = A.filter (fun p => !(p.startIP == 0)) := by
    rw [hAdef, List.filter_filter]
    refine List.filter_congr ?_
    intro a ha
    by_cases hz : a.startIP = 0
    · simp [hz]
    · have hgood2 : goodPair a := by
        rcases m2 a ha with h | h
        · rw [h] at hz
          exact absurd rfl hz
        · exact h
      simp [hz, hgood2.2]
  have hperm1 : lpos.Perm (A.filter (fun p => !(p.startIP == 0))) := by
    rw [← hfl, ← hRA]
    exact hs2perm.filter _
  have hlposSorted : lpos.Pairwise (fun a b => b.startIP ≤ a.startIP) := by
    rw [hsplit] at hs2sorted
    exact (List.pairwise_append.mp hs2sorted).1
  have hAfilterDesc : (A.filter (fun p => !(p.startIP == 0))).Pairwise
      (fun a b => b.startIP < a.startIP) := hAdesc.filter _
  have hlposNe : lpos.Pairwise (fun a b => a.startIP ≠ b.startIP) := by
    have h2 : (A.filter (fun p => !(p.startIP == 0))).Pairwise
        (fun a b => a.startIP ≠ b.startIP) :=
      hAfilterDesc.imp (fun h => by omega)
    exact (hperm1.pairwise_iff (fun h => Ne.symm h)).mpr h2
  have hlposStrict : lpos.Pairwise (fun a b => b.startIP < a.startIP) := by
    have := hlposSorted.and hlposNe
    exact this.imp (fun h => by omega)
  have hlposEq : lpos = A.filter (fun p => !(p.startIP == 0)) := by
    haveI : IsAntisymm IpPair (fun a b => b.startIP < a.startIP) :=
      ⟨fun a b h1 h2 => absurd h2 (by omega)⟩
    exact List.eq_of_perm_of_sorted hperm1 hlposStrict hAfilterDesc
  have hzle : (A.filter (fun p => p.startIP == 0)).length ≤ 1 :=
    filter_zero_len_le_one hAdesc
  have hAsplit : (A.filter (fun p => !(p.startIP == 0))).length
      + (A.filter (fun p => p.startIP == 0)).length = A.length :=
    length_filter_pos_add A
  have hcval : s1.length - m = A.length := by
    have := m4
    have := hAlen
    omega
  have hs2len : (sortPairs R).length = R.length := hs2perm.length_eq
  have hsplitLen : lpos.length + lzero.length = R.length := by
    have : (sortPairs R).length = lpos.length + lzero.length := by
      rw [hsplit, List.length_append]
    omega
  have hlposMemN : ∀ x ∈ lpos, tombOrGood x ∧ isSkip x = false := by
    intro x hx
    have hxA : x ∈ A := List.mem_of_mem_filter (hlposEq ▸ hx)
    exact ⟨(hAmem x hxA).2, (hAmem x hxA).1⟩
  have hlposSep : lpos.Pairwise (fun a b => b.endIP < a.startIP) := by
    rw [hlposEq]
    exact hAsep.filter _
  have htake : (sortPairs R).take (s1.length - m)
      = lpos ++ lzero.take ((s1.length - m) - lpos.length) := by
    rw [hsplit, List.take_append_eq_append_take]
    congr 1
    apply List.take_of_length_le
    rw [hlposEq]
    omega
  rw [htake]
  have hlplen : lpos.length = (A.filter (fun p => !(p.startIP == 0))).length := by
    rw [hlposEq]
  by_cases hz : (A.filter (fun p => p.startIP == 0)).length = 0
  · have : (s1.length - m) - lpos.length = 0 := by omega
    rw [this, List.take_zero, List.append_nil]
    constructor
    · intro p hp
      exact (hlposMemN p hp).1
    · exact hlposSep
  · have hz1 : (A.filter (fun p => p.startIP == 0)).length = 1 := by omega
    have htk1 : (s1.length - m) - lpos.length = 1 := by omega
    have hlzlen : 1 ≤ lzero.length := by
      have hRlen : R.length = s1.length := m1
      omega
    rcases lzero with _ | ⟨z0, zs⟩
    · simp at hlzlen
    · rw [htk1]
      have htake1 : (z0 :: zs).take 1 = [z0] := rfl
      rw [htake1]
      have hz0mem : z0 ∈ sortPairs R := by
        rw [hsplit]
        simp
      have hz0R : z0 ∈ R := hs2perm.subset hz0mem
      have hz0tg : tombOrGood z0 := m2 z0 hz0R
      constructor
      · intro p hp
        rcases List.mem_append.mp hp with h | h
        · exact (hlposMemN p h).1
        · rw [List.mem_singleton.mp h]
          exact hz0tg
      · rw [List.pairwise_append]
        refine ⟨hlposSep, List.pairwise_singleton _ _, ?_⟩
        intro x hx y hy
        rw [List.mem_singleton.mp hy]
        have hxpos := hposAll x hx
        rcases hz0tg with h | h
        · rw [h]
          show tombPair.endIP < x.startIP
          simpa [tombPair, IPv6zero] using hxpos
        · have hz0A : z0 ∈ A := by
            rw [hAdef]
            rw [List.mem_filter]
            exact ⟨hz0R, by simp [h.2]⟩
          have hxA : x ∈ A := List.mem_of_mem_filter (hlposEq ▸ hx)
          have hz0start : z0.startIP = 0 := hzeroAll z0 (by simp)
          exact rel_of_pairwise_of_lt hAsep hAdesc hxA hz0A (by omega)

end Ipdict

namespace Ipdict

theorem mergeInner_noop : ∀ (fuel : Nat) (items : List IpPair) (i j : Nat),
    (∀ p q, p < q → q < items.length →
      (getPair items q).endIP < (getPair items p).startIP) →
    i < j →
    mergeInner items i j fuel = (items, 0) := by
  intro fuel
  induction fuel with
  | zero => intro items i j _ _; rfl
  | succ fuel ih =>
    intro items i j hsep hij
    by_cases hcond : ((getPair items j).endIP == IPv6zero
        || (getPair items i).endIP == IPv4zero) = true
    · have hs : (if ((getPair items j).endIP == IPv6zero
          || (getPair items i).endIP == IPv4zero) then (items, (0 : Nat))
          else checkMerge items i j) = (items, 0) := by rw [hcond]; rfl
      rw [mergeInner_succ, hs, ih items i (j + 1) hsep (by omega)]
      rfl
    · rw [Bool.not_eq_true] at hcond
      have hjlen : j < items.length := by
        by_contra hc
        push_neg at hc
        rw [getPair_of_length_le hc] at hcond
        simp [IPv6zero] at hcond
      have hs : (if ((getPair items j).endIP == IPv6zero
          || (getPair items i).endIP == IPv4zero) then (items, (0 : Nat))
          else checkMerge items i j) = checkMerge items i j := by rw [hcond]; rfl
      have hcm : checkMerge items i j = (items, 0) := by
        rw [checkMerge, if_neg]
        have := hsep i j hij hjlen
        omega
      rw [mergeInner_succ, hs, hcm, ih items i (j + 1) hsep (by omega)]
      rfl

theorem mergeOuter_noop : ∀ (fuel : Nat) (items : List IpPair) (i : Nat),
    (∀ p q, p < q → q < items.length →
      (getPair items q).endIP < (getPair items p).startIP) →
    mergeOuter items i fuel = (items, 0) := by
  intro fuel
  induction fuel with
  | zero => intro items i _; rfl
  | succ fuel ih =>
    intro items i hsep
    by_cases hskip : isSkip (getPair items i) = true
    · have hs : (if isSkip (getPair items i) then (items, (0 : Nat))
          else mergeInner items i (i + 1) (items.length - (i + 1))) = (items, 0) := by
        rw [hskip]; rfl
      rw [mergeOuter_succ, hs, ih items (i + 1) hsep]
      rfl
    · rw [Bool.not_eq_true] at hskip
      have hinner := mergeInner_noop (items.length - (i + 1)) items i (i + 1)
        hsep (by omega)
      have hs : (if isSkip (getPair items i) then (items, (0 : Nat))
          else mergeInner items i (i + 1) (items.length - (i + 1))) = (items, 0) := by
        rw [hskip]
        simpa using hinner
      rw [mergeOuter_succ, hs, ih items (i + 1) hsep]
      rfl

theorem mergeItems_noop {F : List IpPair}
    (hsep : ∀ p q, p < q → q < F.length →
      (getPair F q).endIP < (getPair F p).startIP) :
    mergeItems F = (F, 0) :=
  mergeOuter_noop (F.length - 1) F 0 hsep

theorem ipdictSort_fixpoint {F : List IpPair} (hn : normalized F) :
    ipdictSort F = F := by
  have hstrict : F.Pairwise (fun a b => b.startIP < a.startIP) := by
    refine hn.2.imp_of_mem (fun {a b} _ hb h => ?_)
    rcases hn.1 b hb with h2 | h2
    · rw [h2] at h ⊢
      simpa [tombPair, IPv6zero] using h
    · have := h2.1
      omega
  have hsort : sortPairs F = F := sortPairs_eq_self hstrict
  have hsep : ∀ p q, p < q → q < F.length →
      (getPair F q).endIP < (getPair F p).startIP :=
    pairwise_iff_getPair.mp hn.2
  have hmerge : mergeItems F = (F, 0) := mergeItems_noop hsep
  have h1 : ipdictSort F =
      (sortPairs (mergeItems (sortPairs F)).1).take
        ((sortPairs F).length - (mergeItems (sortPairs F)).2) := rfl
  rw [h1, hsort, hmerge]
  simp [hsort]

end Ipdict

namespace Ipdict

/-- **C4 counterexample**: the claim says `Sort` merges every pair of
overlapping *or adjacent* ranges into one.  The ranges
`[10.0.0.5 .. 10.0.0.10]` and `[10.0.0.11 .. 10.0.0.20]` are adjacent
(contiguous, sharing no address); after `Sort` the array still holds both
of them, sorted descending, not one merged range. -/
theorem ipdictSort_adjacent_not_merged :
    ipdictSort [⟨ipv4 10 0 0 5, ipv4 10 0 0 10⟩, ⟨ipv4 10 0 0 11, ipv4 10 0 0 20⟩]
        = [⟨ipv4 10 0 0 11, ipv4 10 0 0 20⟩, ⟨ipv4 10 0 0 5, ipv4 10 0 0 10⟩] ∧
      (ipdictSort [⟨ipv4 10 0 0 5, ipv4 10 0 0 10⟩,
        ⟨ipv4 10 0 0 11, ipv4 10 0 0 20⟩]).length ≠ 1 := by
  constructor
  · decide
  · decide

/-- **C4** (amended): for any array of well-formed ranges (start ≤ end,
end not a zero sentinel), `IPItems.Sort` leaves the array sorted by start
IP in descending order with every pair of *overlapping* ranges (one's end
reaching the other's start) merged — any two retained entries are strictly
separated; ranges that are merely adjacent are not merged.  In particular,
inserting `[10.0.0.5 .. 10.0.0.20]` and `[10.0.0.15 .. 10.0.0.30]` and
calling `Sort` yields exactly one range `[10.0.0.5 .. 10.0.0.30]`. -/
theorem ipdictSort_sorted_merged :
    (∀ S : List IpPair,
      (∀ p ∈ S, p.startIP ≤ p.endIP ∧ p.endIP ≠ IPv6zero ∧ p.endIP ≠ IPv4zero) →
      (ipdictSort S).Pairwise
        (fun a b => b.endIP < a.startIP ∧ b.startIP < a.startIP)) ∧
    ipdictSort [⟨ipv4 10 0 0 5, ipv4 10 0 0 20⟩, ⟨ipv4 10 0 0 15, ipv4 10 0 0 30⟩]
      = [⟨ipv4 10 0 0 5, ipv4 10 0 0 30⟩] := by
  constructor
  · intro S hgood
    have hg : ∀ p ∈ S, goodPair p := by
      intro p hp
      obtain ⟨h1, h2, h3⟩ := hgood p hp
      exact ⟨h1, isSkip_false_iff.mpr ⟨h2, h3⟩⟩
    have hn := ipdictSort_normalized hg
    refine hn.2.imp_of_mem (fun {a b} _ hb h => ⟨h, ?_⟩)
    rcases hn.1 b hb with h2 | h2
    · rw [h2] at h ⊢
      simpa [tombPair, IPv6zero] using h
    · have := h2.1
      omega
  · decide

/-- Witness for `ipdictSort_sorted_merged` at a concrete two-range input. -/
theorem ipdictSort_sorted_merged_witness :
    (∀ p ∈ [(⟨2, 5⟩ : IpPair), ⟨7, 9⟩],
      p.startIP ≤ p.endIP ∧ p.endIP ≠ IPv6zero ∧ p.endIP ≠ IPv4zero) ∧
    (ipdictSort [(⟨2, 5⟩ : IpPair), ⟨7, 9⟩]).Pairwise
      (fun a b => b.endIP < a.startIP ∧ b.startIP < a.startIP) :=
  ⟨by decide, ipdictSort_sorted_merged.1 [⟨2, 5⟩, ⟨7, 9⟩] (by decide)⟩

/-- **C5 counterexample**: the claim asserts `finalize(finalize(S)) =
finalize(S)` for *any* multiset of ranges `S`.  For
`S = [(::2, ::ffff:0.0.0.2), (::2, ::ffff:0.0.0.0), (::ffff:0.0.0.2, ::ffff:0.0.0.2)]`
— the second range ends at the IPv4 zero sentinel `0.0.0.0` — the first
`Sort` leaves two entries with equal starts and the asymmetric sentinel
test of `mergeItems` suppresses their merge, while the second `Sort`
merges them: `finalize(finalize(S))` has one entry, `finalize(S)` two. -/
theorem ipdictSort_not_idempotent_counterexample :
    ipdictSort (ipdictSort
        [⟨2, IPv4zero + 2⟩, ⟨2, IPv4zero⟩, ⟨IPv4zero + 2, IPv4zero + 2⟩])
      ≠ ipdictSort
        [⟨2, IPv4zero + 2⟩, ⟨2, IPv4zero⟩, ⟨IPv4zero + 2, IPv4zero + 2⟩] := by
  decide

/-- **C5** (amended): the range-merge step is idempotent for every multiset
of well-formed inserted ranges — every range with start ≤ end whose end IP
is neither `::` nor `0.0.0.0` (`::ffff:0.0.0.0`), the two zero sentinels
the merge step treats as empty slots: `finalize(finalize(S)) = finalize(S)`.
With a sentinel-valued end the law can fail
(`ipdictSort_not_idempotent_counterexample`). -/
theorem ipdictSort_idempotent (S : List IpPair)
    (hgood : ∀ p ∈ S, p.startIP ≤ p.endIP ∧ p.endIP ≠ IPv6zero ∧ p.endIP ≠ IPv4zero) :
    ipdictSort (ipdictSort S) = ipdictSort S := by
  have hg : ∀ p ∈ S, goodPair p := by
    intro p hp
    obtain ⟨h1, h2, h3⟩ := hgood p hp
    exact ⟨h1, isSkip_false_iff.mpr ⟨h2, h3⟩⟩
  exact ipdictSort_fixpoint (ipdictSort_normalized hg)

/-- Witness for `ipdictSort_idempotent` at the spec's concrete ranges
`[10.0.0.5 .. 10.0.0.20]` and `[10.0.0.15 .. 10.0.0.30]`. -/
theorem ipdictSort_idempotent_witness :
    (∀ p ∈ [(⟨ipv4 10 0 0 5, ipv4 10 0 0 20⟩ : IpPair), ⟨ipv4 10 0 0 15, ipv4 10 0 0 30⟩],
      p.startIP ≤ p.endIP ∧ p.endIP ≠ IPv6zero ∧ p.endIP ≠ IPv4zero) ∧
    ipdictSort (ipdictSort
        [(⟨ipv4 10 0 0 5, ipv4 10 0 0 20⟩ : IpPair), ⟨ipv4 10 0 0 15, ipv4 10 0 0 30⟩])
      = ipdictSort
        [(⟨ipv4 10 0 0 5, ipv4 10 0 0 20⟩ : IpPair), ⟨ipv4 10 0 0 15, ipv4 10 0 0 30⟩] :=
  ⟨by decide, ipdictSort_idempotent _ (by decide)⟩

end Ipdict

namespace Http2

theorem tokenTable_pointwise (r : Nat) :
    (if 127 ≤ r || (65 ≤ r && r ≤ 90) then false else isTokenTable r)
      = (rfc7230Tchar r && !isUpperAscii r) := by
  by_cases h : r < 127
  · have hb : ∀ s, s < 127 →
        ((if 127 ≤ s || (65 ≤ s && s ≤ 90) then false else isTokenTable s)
          = (rfc7230Tchar s && !isUpperAscii s)) := by decide
    exact hb r h
  · push_neg at h
    have h1 : (127 ≤ r) := h
    rw [if_pos (by simp [h1])]
    have h2 : rfc7230Tchar r = false := by
      simp only [rfc7230Tchar, Bool.or_eq_false_iff, beq_eq_false_iff_ne, ne_eq,
        Bool.and_eq_false_iff, decide_eq_false_iff_not, not_le]
      omega
    rw [h2]
    rfl

/-- **C8**: `validHeaderFieldName(v)` returns true exactly when `v` is
non-empty and every character is an RFC 7230 token character
(per the table in the source) that is not an uppercase ASCII letter — so
names containing a capital letter, a colon, a NUL, or the empty name are
rejected; and `validHeaderFieldValue(v)` returns false for every string
containing NUL (0x0), CR (0xd) or LF (0xa). -/
theorem validHeaderField_spec :
    (∀ v : List Nat, validHeaderFieldName v =
      (!v.isEmpty && v.all fun r => rfc7230Tchar r && !isUpperAscii r)) ∧
    (∀ v : List Nat, (0 ∈ v ∨ 13 ∈ v ∨ 10 ∈ v) →
      validHeaderFieldValue v = false) := by
  constructor
  · intro v
    have hfg : (fun r => if 127 ≤ r || (65 ≤ r && r ≤ 90) then false
        else isTokenTable r)
        = (fun r => rfc7230Tchar r && !isUpperAscii r) :=
      funext tokenTable_pointwise
    rcases v with _ | ⟨x, t⟩
    · rfl
    · rw [validHeaderFieldName]
      rw [if_neg (by simp)]
      rw [show ((x :: t).isEmpty = false) from rfl]
      rw [Bool.not_false, Bool.true_and]
      rw [← hfg]
  · intro v hv
    have hmem : ∃ b ∈ v, ¬((!((b < 32 && b != 9) || b == 127)) = true) := by
      rcases hv with h | h | h
      · exact ⟨0, h, by decide⟩
      · exact ⟨13, h, by decide⟩
      · exact ⟨10, h, by decide⟩
    rw [validHeaderFieldValue]
    rw [List.all_eq_false]
    obtain ⟨b, hb1, hb2⟩ := hmem
    exact ⟨b, hb1, hb2⟩

/-- Witness for `validHeaderField_spec`: the value `"H\x00i"` (bytes
`[72, 0, 105]`) contains a NUL and is rejected. -/
theorem validHeaderField_spec_witness :
    ((0 : Nat) ∈ [72, 0, 105] ∨ (13 : Nat) ∈ [72, 0, 105] ∨ (10 : Nat) ∈ [72, 0, 105]) ∧
    validHeaderFieldValue [72, 0, 105] = false :=
  ⟨by decide, validHeaderField_spec.2 [72, 0, 105] (by decide)⟩

end Http2

namespace Proxy

theorem clusterInvokeIters_le_aux :
    ∀ (d i : Nat) (outcome : Nat → StepOutcome) (retryLevel : Nat)
      (outreq : OutRequest), 20 - i ≤ d →
      clusterInvokeIters outcome retryLevel outreq i ≤ 20 - i := by
  intro d
  induction d with
  | zero =>
    intro i outcome retryLevel outreq h
    rw [clusterInvokeIters]
    rw [dif_neg (by omega)]
    omega
  | succ d ih =>
    intro i outcome retryLevel outreq h
    by_cases hi : i < 20
    · have hrec := ih (i + 1) outcome retryLevel outreq (by omega)
      cases houtcome : outcome i with
      | crossRetryBalance =>
        have e : clusterInvokeIters outcome retryLevel outreq i
            = 1 + clusterInvokeIters outcome retryLevel outreq (i + 1) := by
          rw [clusterInvokeIters, dif_pos hi, houtcome]
        rw [e]
        omega
      | balanceError =>
        have e : clusterInvokeIters outcome retryLevel outreq i = 1 := by
          rw [clusterInvokeIters, dif_pos hi, houtcome]
        rw [e]
        omega
      | forwardFinish =>
        have e : clusterInvokeIters outcome retryLevel outreq i = 1 := by
          rw [clusterInvokeIters, dif_pos hi, houtcome]
        rw [e]
        omega
      | roundTripOk =>
        have e : clusterInvokeIters outcome retryLevel outreq i = 1 := by
          rw [clusterInvokeIters, dif_pos hi, houtcome]
        rw [e]
        omega
      | roundTripErr err =>
        by_cases hr : allowRetryOf err retryLevel outreq = true
        · have e : clusterInvokeIters outcome retryLevel outreq i
              = 1 + clusterInvokeIters outcome retryLevel outreq (i + 1) := by
            rw [clusterInvokeIters, dif_pos hi, houtcome]
            show (if allowRetryOf err retryLevel outreq = true
                then 1 + clusterInvokeIters outcome retryLevel outreq (i + 1) else 1)
              = 1 + clusterInvokeIters outcome retryLevel outreq (i + 1)
            rw [if_pos hr]
          rw [e]
          omega
        · have e : clusterInvokeIters outcome retryLevel outreq i = 1 := by
            rw [clusterInvokeIters, dif_pos hi, houtcome]
            show (if allowRetryOf err retryLevel outreq = true
                then 1 + clusterInvokeIters outcome retryLevel outreq (i + 1) else 1)
              = 1
            rw [if_neg hr]
          rw [e]
          omega
    · have e : clusterInvokeIters outcome retryLevel outreq i = 0 := by
        rw [clusterInvokeIters, dif_neg hi]
      rw [e]
      omega

/-- **C1**: however the balancer, the forward callback and the backend
round trips behave, the forwarding loop of `clusterInvoke` executes at
most 20 iterations — hence at most 20 backend selection/forward attempts —
independently of the configured `RetryMax` and `CrossRetry` values (which
only influence the per-iteration outcomes). -/
theorem clusterInvoke_at_most_20_attempts
    (outcome : Nat → StepOutcome) (retryLevel : Nat) (outreq : OutRequest) :
    clusterInvokeIters outcome retryLevel outreq 0 ≤ 20 :=
  clusterInvokeIters_le_aux 20 0 outcome retryLevel outreq (by omega)

/-- **C2**: after a backend forwarding error, `clusterInvoke` allows a
retry exactly when the error is a connect error, or it is a write-request,
read-response-header, response-header-timeout or transport-broken error
and the cluster retry level is `RetryGet` (`ConnectOrGetBody`), the
outbound request's method is `GET`, and the outbound request carries no
entity body (nil body, the shared `EofReader`, or a spdy body at EOF). -/
theorem allowRetry_spec (e : RoundTripErr) (retryLevel : Nat) (outreq : OutRequest) :
    allowRetryOf e retryLevel outreq = true ↔
      (e = .connectError ∨
        ((e = .writeRequestError ∨ e = .readRespHeaderError ∨
            e = .respHeaderTimeoutError ∨ e = .transportBrokenError) ∧
          retryLevel = RetryGet ∧ outreq.Method = "GET" ∧
          (outreq.Body = .noBody ∨ outreq.Body = .eofReader ∨
            outreq.Body = .spdyBody true))) := by
  cases e <;>
    simp [allowRetryOf, checkAllowRetry, RetryGet] <;>
    cases hb : outreq.Body <;>
    simp [checkRequestWithoutBody, hb]

end Proxy



namespace Proxy

theorem headerGet_cons_ne (e : String × List String) (t : Header) {k : String}
    (he : e.1 ≠ k) : headerGet (e :: t) k = headerGet t k := by
  simp only [headerGet]
  rw [List.find?_cons_of_neg _ (by simp [he])]

theorem headerGet_del_self (h : Header) (k : String) :
    headerGet (headerDel h k) k = "" := by
  induction h with
  | nil => rfl
  | cons e t ih =>
    by_cases he : e.1 = k
    · rw [headerDel, List.filter_cons_of_neg (by simp [he])]
      exact ih
    · rw [headerDel, List.filter_cons_of_pos (by simp [he])]
      rw [show (List.filter (fun e => e.1 != k) t) = headerDel t k from rfl]
      rw [headerGet_cons_ne e (headerDel t k) he]
      exact ih

theorem headerGet_del_ne (h : Header) {k k' : String} (hne : k' ≠ k) :
    headerGet (headerDel h k) k' = headerGet h k' := by
  induction h with
  | nil => rfl
  | cons e t ih =>
    by_cases he : e.1 = k
    · rw [headerDel, List.filter_cons_of_neg (by simp [he])]
      rw [show (List.filter (fun e => e.1 != k) t) = headerDel t k from rfl]
      rw [ih, headerGet_cons_ne e t (by rw [he]; exact fun hc => hne hc.symm)]
    · rw [headerDel, List.filter_cons_of_pos (by simp [he])]
      rw [show (List.filter (fun e => e.1 != k) t) = headerDel t k from rfl]
      by_cases he2 : e.1 = k'
      · simp only [headerGet]
        rw [List.find?_cons_of_pos _ (by simp [he2]),
          List.find?_cons_of_pos _ (by simp [he2])]
      · rw [headerGet_cons_ne e (headerDel t k) he2,
          headerGet_cons_ne e t he2]
        exact ih

theorem hopStep_skip (cur : Header) (copied : Bool) (k : String)
    (hg : headerGet cur k = "") : hopStep (cur, copied) k = (cur, copied) := by
  rw [hopStep]
  simp [hg]

theorem hopStep_del (cur : Header) (copied : Bool) (k : String)
    (hg : headerGet cur k ≠ "") : hopStep (cur, copied) k = (headerDel cur k, true) := by
  cases copied <;> simp [hopStep, hg, CopyHeader]

theorem any_congr_mem {α : Type} {l : List α} {f g : α → Bool}
    (h : ∀ x ∈ l, f x = g x) : l.any f = l.any g := by
  induction l with
  | nil => rfl
  | cons a t ih =>
    rw [List.any_cons, List.any_cons, h a (List.mem_cons_self a t),
      ih (fun x hx => h x (List.mem_cons_of_mem a hx))]

theorem hopFold_spec : ∀ (ks : List String) (cur : Header) (copied : Bool),
    ks.Pairwise (fun a b => a ≠ b) →
    (∀ k', k' ∉ ks →
      headerGet (ks.foldl hopStep (cur, copied)).1 k' = headerGet cur k') ∧
    (∀ k ∈ ks, headerGet (ks.foldl hopStep (cur, copied)).1 k = "") ∧
    ((ks.foldl hopStep (cur, copied)).2
      = (copied || ks.any (fun k => !(headerGet cur k == "")))) ∧
    (ks.all (fun k => headerGet cur k == "") = true →
      ks.foldl hopStep (cur, copied) = (cur, copied)) := by
  intro ks
  induction ks with
  | nil =>
    intro cur copied _
    exact ⟨fun k' _ => rfl, fun k hk => absurd hk (List.not_mem_nil k),
      by simp, fun _ => rfl⟩
  | cons k ks ih =>
    intro cur copied hdist
    rw [List.pairwise_cons] at hdist
    by_cases hg : headerGet cur k = ""
    · have hstep : List.foldl hopStep (cur, copied) (k :: ks)
          = List.foldl hopStep (cur, copied) ks := by
        rw [List.foldl_cons, hopStep_skip cur copied k hg]
      obtain ⟨i1, i2, i3, i4⟩ := ih cur copied hdist.2
      rw [hstep]
      refine ⟨?_, ?_, ?_, ?_⟩
      · intro k' hk'
        exact i1 k' (fun hc => hk' (List.mem_cons_of_mem k hc))
      · intro k2 hk2
        rcases List.mem_cons.mp hk2 with rfl | hk2'
        · have hnotin : k2 ∉ ks := fun hc => (hdist.1 k2 hc) rfl
          rw [i1 k2 hnotin]
          exact hg
        · exact i2 k2 hk2'
      · rw [i3, List.any_cons]
        simp [hg]
      · intro hall
        rw [List.all_cons] at hall
        exact i4 (Bool.and_eq_true_iff.mp hall).2
    · have hstep : List.foldl hopStep (cur, copied) (k :: ks)
          = List.foldl hopStep (headerDel cur k, true) ks := by
        rw [List.foldl_cons, hopStep_del cur copied k hg]
      obtain ⟨i1, i2, i3, _⟩ := ih (headerDel cur k) true hdist.2
      rw [hstep]
      refine ⟨?_, ?_, ?_, ?_⟩
      · intro k' hk'
        have hne : k' ≠ k := fun hc => hk' (hc ▸ List.mem_cons_self k ks)
        rw [i1 k' (fun hc => hk' (List.mem_cons_of_mem k hc))]
        exact headerGet_del_ne cur hne
      · intro k2 hk2
        rcases List.mem_cons.mp hk2 with rfl | hk2'
        · have hnotin : k2 ∉ ks := fun hc => (hdist.1 k2 hc) rfl
          rw [i1 k2 hnotin]
          exact headerGet_del_self cur k2
        · exact i2 k2 hk2'
      · rw [i3, List.any_cons]
        have hany : ks.any (fun k2 => !(headerGet (headerDel cur k) k2 == ""))
            = ks.any (fun k2 => !(headerGet cur k2 == "")) := by
          apply any_congr_mem
          intro k2 hk2
          rw [headerGet_del_ne cur (fun hc => (hdist.1 k2 hk2) hc.symm)]
        rw [hany]
        simp [hg]
      · intro hall
        rw [List.all_cons] at hall
        have := (Bool.and_eq_true_iff.mp hall).1
        simp [hg] at this

/-- **C9 counterexample**: the spec says every hop-by-hop header is removed
from the outbound request.  When the inbound request carries `Connection`
with an empty first value (values `["", "close"]`), `Get("Connection")`
returns `""`, so the header is neither removed nor does it trigger the
copy: the outbound request still carries the `Connection` key and shares
the inbound header map. -/
theorem buildOutRequest_keeps_empty_valued_hop_header :
    (buildOutRequest
        ⟨"GET", .noBody, "HTTP/2.0", 2, 0, true,
          [("Connection", ["", "close"])]⟩).1.Header
      = [("Connection", ["", "close"])] ∧
    (buildOutRequest
        ⟨"GET", .noBody, "HTTP/2.0", 2, 0, true,
          [("Connection", ["", "close"])]⟩).2 = false := by
  constructor
  · rfl
  · rfl

/-- **C9** (amended): the outbound request is a shallow copy of the
inbound request forced to protocol `HTTP/1.1` with `Close = false`; after
`hopByHopHeaderRemove`, `Get` of every hop-by-hop header name returns the
empty string; the header map is freshly copied exactly when some
hop-by-hop header has a non-empty first value, and otherwise the outbound
request shares the inbound header map unchanged.  (A hop-by-hop header
whose first value is the empty string is not removed, see
`buildOutRequest_keeps_empty_valued_hop_header`.) -/
theorem buildOutRequest_spec (req : OutRequest) :
    (buildOutRequest req).1.Proto = "HTTP/1.1" ∧
    (buildOutRequest req).1.ProtoMajor = 1 ∧
    (buildOutRequest req).1.ProtoMinor = 1 ∧
    (buildOutRequest req).1.Close = false ∧
    (buildOutRequest req).1.Method = req.Method ∧
    (buildOutRequest req).1.Body = req.Body ∧
    (∀ h ∈ hopHeaders, headerGet (buildOutRequest req).1.Header h = "") ∧
    ((buildOutRequest req).2 = true ↔
      ∃ h ∈ hopHeaders, headerGet req.Header h ≠ "") ∧
    ((buildOutRequest req).2 = false →
      (buildOutRequest req).1.Header = req.Header) := by
  have hdist : hopHeaders.Pairwise (fun a b => a ≠ b) := by
    rw [hopHeaders]
    decide
  obtain ⟨f1, f2, f3, f4⟩ := hopFold_spec hopHeaders req.Header false hdist
  have hb : buildOutRequest req
      = ({ req with Proto := "HTTP/1.1", ProtoMajor := 1, ProtoMinor := 1, Close := false, Header := (hopHeaders.foldl hopStep (req.Header, false)).1 },
         (hopHeaders.foldl hopStep (req.Header, false)).2) := by
    simp only [buildOutRequest, hopByHopHeaderRemove, httpProtoSet]
  rw [hb]
  dsimp only
  refine ⟨rfl, rfl, rfl, rfl, rfl, rfl, ?_, ?_, ?_⟩
  · intro h hmem
    exact f2 h hmem
  · rw [f3]
    simp [List.any_eq_true]
  · intro hfalse
    rw [f3] at hfalse
    simp only [Bool.false_or] at hfalse
    have hall : hopHeaders.all (fun k => headerGet req.Header k == "") = true := by
      rw [List.all_eq_true]
      intro k hk
      rw [List.any_eq_false] at hfalse
      simpa using hfalse k hk
    rw [f4 hall]

/-- Witness for `buildOutRequest_spec`: a request whose single header is
not hop-by-hop is passed through with its header map shared. -/
theorem buildOutRequest_spec_witness :
    (buildOutRequest ⟨"GET", .noBody, "HTTP/1.0", 1, 0, true,
        [("Accept", ["*/*"])]⟩).2 = false ∧
    (buildOutRequest ⟨"GET", .noBody, "HTTP/1.0", 1, 0, true,
        [("Accept", ["*/*"])]⟩).1.Header = [("Accept", ["*/*"])] :=
  ⟨by decide, (buildOutRequest_spec _).2.2.2.2.2.2.2.2 (by decide)⟩

end Proxy

namespace Route

theorem goSplit_ne_nil (sep : Char) (l : List Char) : goSplit sep l ≠ [] := by
  cases l with
  | nil => simp [goSplit]
  | cons c t =>
    cases h : goSplit sep t with
    | nil => rw [goSplit, h]; simp
    | cons g gs =>
      rw [goSplit, h]
      show (if c = sep then [] :: g :: gs else (c :: g) :: gs) ≠ []
      by_cases hc : c = sep
      · rw [if_pos hc]; simp
      · rw [if_neg hc]; simp

theorem goSplit_cons_sep (sep : Char) (t : List Char) :
    goSplit sep (sep :: t) = [] :: goSplit sep t := by
  cases h : goSplit sep t with
  | nil => exact absurd h (goSplit_ne_nil sep t)
  | cons g gs =>
    rw [goSplit, h]
    show (if sep = sep then [] :: g :: gs else (sep :: g) :: gs) = [] :: g :: gs
    rw [if_pos rfl]

theorem goSplit_cons_ne (sep c : Char) (t : List Char) (hc : c ≠ sep) :
    ∀ g gs, goSplit sep t = g :: gs → goSplit sep (c :: t) = (c :: g) :: gs := by
  intro g gs h
  rw [goSplit, h]
  show (if c = sep then [] :: g :: gs else (c :: g) :: gs) = (c :: g) :: gs
  rw [if_neg hc]

theorem appendLast_snoc (L : List (List Char)) (x : List Char) (c : Char) :
    appendLast (L ++ [x]) c = L ++ [x ++ [c]] := by
  induction L with
  | nil => rfl
  | cons y ys ih =>
    cases hys : ys ++ [x] with
    | nil => exact absurd hys (by simp)
    | cons z zs =>
      rw [List.cons_append, hys]
      rw [show appendLast (y :: z :: zs) c = y :: appendLast (z :: zs) c from rfl]
      rw [← hys, ih]
      simp

theorem goSplit_snoc_sep (sep : Char) (l : List Char) :
    goSplit sep (l ++ [sep]) = goSplit sep l ++ [[]] := by
  induction l with
  | nil =>
    rw [List.nil_append, goSplit_cons_sep]
    rfl
  | cons c t ih =>
    by_cases hc : c = sep
    · subst hc
      rw [List.cons_append, goSplit_cons_sep, goSplit_cons_sep, ih]
      simp
    · cases h : goSplit sep t with
      | nil => exact absurd h (goSplit_ne_nil sep t)
      | cons g gs =>
        have h2 : goSplit sep (t ++ [sep]) = g :: (gs ++ [[]]) := by
          rw [ih, h]
          rfl
        rw [List.cons_append, goSplit_cons_ne sep c (t ++ [sep]) hc _ _ h2,
          goSplit_cons_ne sep c t hc _ _ h]
        simp

theorem goSplit_snoc_ne (sep c : Char) (hc : c ≠ sep) (l : List Char) :
    goSplit sep (l ++ [c]) = appendLast (goSplit sep l) c := by
  induction l with
  | nil =>
    rw [List.nil_append, goSplit_cons_ne sep c [] hc [] [] rfl]
    rfl
  | cons d t ih =>
    cases h : goSplit sep t with
    | nil => exact absurd h (goSplit_ne_nil sep t)
    | cons g gs =>
      by_cases hd : d = sep
      · subst hd
        rw [List.cons_append, goSplit_cons_sep, ih, h, goSplit_cons_sep, h]
        rfl
      · cases gs with
        | nil =>
          have h2 : goSplit sep (t ++ [c]) = (g ++ [c]) :: [] := by
            rw [ih, h]
            rfl
          rw [List.cons_append, goSplit_cons_ne sep d (t ++ [c]) hd _ _ h2,
            goSplit_cons_ne sep d t hd _ _ h]
          rfl
        | cons g2 gs2 =>
          have h2 : goSplit sep (t ++ [c]) = g :: appendLast (g2 :: gs2) c := by
            rw [ih, h]
            rfl
          rw [List.cons_append, goSplit_cons_ne sep d (t ++ [c]) hd _ _ h2,
            goSplit_cons_ne sep d t hd _ _ h]
          rfl

theorem goSplit_reverse (sep : Char) (l : List Char) :
    goSplit sep l.reverse = ((goSplit sep l).map List.reverse).reverse := by
  induction l with
  | nil => rfl
  | cons c t ih =>
    rw [List.reverse_cons]
    cases h : goSplit sep t with
    | nil => exact absurd h (goSplit_ne_nil sep t)
    | cons g gs =>
      by_cases hc : c = sep
      · subst hc
        rw [goSplit_snoc_sep, ih, goSplit_cons_sep, h]
        simp
      · rw [goSplit_snoc_ne sep c hc, ih, h, goSplit_cons_ne sep c t hc g gs h]
        rw [List.map_cons, List.reverse_cons, appendLast_snoc]
        simp

theorem reverseFqdnHost_of_no_trailing_dot (host : List Char)
    (h : host.getLast? ≠ some '.') : reverseFqdnHost host = host.reverse := by
  rw [reverseFqdnHost]
  cases hr : host.reverse with
  | nil => rfl
  | cons c t =>
    have hc : c ≠ '.' := by
      intro hcc
      apply h
      rw [← List.head?_reverse, hr, hcc]
      rfl
    split
    · next t' heq =>
      rw [List.cons.injEq] at heq
      exact absurd heq.1 hc
    · rfl

end Route

namespace Route

/-- **C3 counterexample**: the key used for `www.example.com` is the
dot-split of the character-reversed name — each label's characters are
reversed too — not the plain labels in reverse order: the trie key is
`["moc", "elpmaxe", "www"]`, and in particular it is not
`["com", "example", "www"]` as the spec's example states. -/
theorem hostTrieKey_counterexample :
    goSplit '.' (reverseFqdnHost "www.example.com".toList)
      = ["moc".toList, "elpmaxe".toList, "www".toList] ∧
    goSplit '.' (reverseFqdnHost "www.example.com".toList)
      ≠ ["com".toList, "example".toList, "www".toList] := by
  constructor
  · decide
  · decide

/-- **C3** (amended): building the trie and looking up a host both key the
trie by `strings.Split(reverseFqdnHost(·), ".")`, the dot-separated pieces
of the character-reversed hostname.  For a hostname with no trailing dot
this equals the label list reversed with each label's characters also
reversed (so `www.example.com` is keyed `["moc","elpmaxe","www"]`, not
`["com","example","www"]`). -/
theorem hostTrieKey_spec :
    (∀ host : List Char, host.getLast? ≠ some '.' →
      goSplit '.' (reverseFqdnHost host)
        = ((goSplit '.' host).map List.reverse).reverse) ∧
    (∀ conf host tag, conf.HostMap = [(host, tag)] →
      buildHostRoute conf
        = [(goSplit '.' (reverseFqdnHost (toLowerGo host)), ⟨mapGetD conf.HostTagMap tag, tag⟩)]) ∧
    (∀ t trie host, t.hostTrie = some trie →
      findHostRoute t host
        = (match trieGet trie (goSplit '.' (reverseFqdnHost (hostnameStrip (toLowerGo host)))) with
           | some r => (r, none)
           | none => (⟨"", ""⟩, some .ErrNoProduct))) := by
  refine ⟨?_, ?_, ?_⟩
  · intro host hdot
    rw [reverseFqdnHost_of_no_trailing_dot host hdot, goSplit_reverse]
  · intro conf host tag hmap
    rw [buildHostRoute, hmap]
    rfl
  · intro t trie host ht
    rw [findHostRoute, ht]

/-- Witness for `hostTrieKey_spec`: concrete instances of all three parts. -/
theorem hostTrieKey_spec_witness :
    goSplit '.' (reverseFqdnHost "a.bc".toList)
      = ((goSplit '.' "a.bc".toList).map List.reverse).reverse ∧
    buildHostRoute ⟨[("A.b".toList, "t1")], [("t1", "p1")], "d"⟩
      = [(goSplit '.' (reverseFqdnHost (toLowerGo "A.b".toList)), ⟨mapGetD [("t1", "p1")] "t1", "t1"⟩)] ∧
    findHostRoute ⟨some [], [], "", []⟩ "h".toList
      = (match trieGet [] (goSplit '.' (reverseFqdnHost (hostnameStrip (toLowerGo "h".toList)))) with
         | some r => (r, none)
         | none => (⟨"", ""⟩, some .ErrNoProduct)) :=
  ⟨hostTrieKey_spec.1 "a.bc".toList (by decide),
   hostTrieKey_spec.2.1 ⟨[("A.b".toList, "t1")], [("t1", "p1")], "d"⟩ "A.b".toList "t1" rfl,
   hostTrieKey_spec.2.2 ⟨some [], [], "", []⟩ [] "h".toList rfl⟩

/-- **C6**: `LookupCluster` returns `ErrNoProductRule` (clearing the
cluster name) when the request's product has no entry in the product route
table; otherwise it takes the first rule in scan order whose condition
matches: a non-empty cluster name of that rule is stored with no error,
while no matching rule yields `ErrNoMatchRule`; and whenever an error is
returned the request's cluster name is the empty string. -/
theorem LookupCluster_spec (t : HostTable) (req : Request) :
    (List.find? (fun e => e.1 == req.route.Product) t.productRouteTable = none →
      LookupCluster t req
        = ({ req with route := { req.route with ClusterName := "", Error := some .ErrNoProductRule } }, some .ErrNoProductRule)) ∧
    (∀ p rules, List.find? (fun e => e.1 == req.route.Product) t.productRouteTable = some (p, rules) →
      (∀ rule, List.find? (fun rule => rule.Cond req) rules = some rule → rule.ClusterName ≠ "" →
        LookupCluster t req
          = ({ req with route := { req.route with ClusterName := rule.ClusterName } }, none)) ∧
      (List.find? (fun rule => rule.Cond req) rules = none →
        LookupCluster t req
          = ({ req with route := { req.route with ClusterName := "", Error := some .ErrNoMatchRule } }, some .ErrNoMatchRule))) ∧
    (∀ err, (LookupCluster t req).2 = some err → (LookupCluster t req).1.route.ClusterName = "") := by
  refine ⟨?_, ?_, ?_⟩
  · intro h
    rw [LookupCluster, h]
  · intro p rules h
    constructor
    · intro rule hr hne
      rw [LookupCluster, h]
      show (let clusterName := match List.find? (fun rule => rule.Cond req) rules with | some rule => rule.ClusterName | none => ""; if clusterName == "" then ({ req with route := { req.route with ClusterName := "", Error := some .ErrNoMatchRule } }, some RouteError.ErrNoMatchRule) else ({ req with route := { req.route with ClusterName := clusterName } }, none)) = _
      rw [hr]
      show (if rule.ClusterName == "" then ({ req with route := { req.route with ClusterName := "", Error := some .ErrNoMatchRule } }, some RouteError.ErrNoMatchRule) else ({ req with route := { req.route with ClusterName := rule.ClusterName } }, none)) = _
      rw [if_neg (by simpa using hne)]
    · intro hnone
      rw [LookupCluster, h]
      show (let clusterName := match List.find? (fun rule => rule.Cond req) rules with | some rule => rule.ClusterName | none => ""; if clusterName == "" then ({ req with route := { req.route with ClusterName := "", Error := some .ErrNoMatchRule } }, some RouteError.ErrNoMatchRule) else ({ req with route := { req.route with ClusterName := clusterName } }, none)) = _
      rw [hnone]
      rfl
  · intro err
    cases hfind : List.find? (fun e => e.1 == req.route.Product) t.productRouteTable with
    | none =>
      intro _
      rw [LookupCluster, hfind]
    | some pr =>
      obtain ⟨p, rules⟩ := pr
      cases hr : List.find? (fun rule => rule.Cond req) rules with
      | none =>
        have hval : LookupCluster t req
            = ({ req with route := { req.route with ClusterName := "", Error := some .ErrNoMatchRule } }, some RouteError.ErrNoMatchRule) := by
          rw [LookupCluster, hfind]
          show (let clusterName := match List.find? (fun rule => rule.Cond req) rules with | some rule => rule.ClusterName | none => ""; if clusterName == "" then ({ req with route := { req.route with ClusterName := "", Error := some .ErrNoMatchRule } }, some RouteError.ErrNoMatchRule) else ({ req with route := { req.route with ClusterName := clusterName } }, none)) = _
          rw [hr]
          rfl
        intro _
        rw [hval]
      | some rule =>
        by_cases hcn : rule.ClusterName = ""
        · have hval : LookupCluster t req
              = ({ req with route := { req.route with ClusterName := "", Error := some .ErrNoMatchRule } }, some RouteError.ErrNoMatchRule) := by
            rw [LookupCluster, hfind]
            show (let clusterName := match List.find? (fun rule => rule.Cond req) rules with | some rule => rule.ClusterName | none => ""; if clusterName == "" then ({ req with route := { req.route with ClusterName := "", Error := some .ErrNoMatchRule } }, some RouteError.ErrNoMatchRule) else ({ req with route := { req.route with ClusterName := clusterName } }, none)) = _
            rw [hr]
            show (if rule.ClusterName == "" then ({ req with route := { req.route with ClusterName := "", Error := some .ErrNoMatchRule } }, some RouteError.ErrNoMatchRule) else ({ req with route := { req.route with ClusterName := rule.ClusterName } }, none)) = _
            rw [if_pos (by simpa using hcn)]
          intro _
          rw [hval]
        · have hval : LookupCluster t req
              = ({ req with route := { req.route with ClusterName := rule.ClusterName } }, none) := by
            rw [LookupCluster, hfind]
            show (let clusterName := match List.find? (fun rule => rule.Cond req) rules with | some rule => rule.ClusterName | none => ""; if clusterName == "" then ({ req with route := { req.route with ClusterName := "", Error := some .ErrNoMatchRule } }, some RouteError.ErrNoMatchRule) else ({ req with route := { req.route with ClusterName := clusterName } }, none)) = _
            rw [hr]
            show (if rule.ClusterName == "" then ({ req with route := { req.route with ClusterName := "", Error := some .ErrNoMatchRule } }, some RouteError.ErrNoMatchRule) else ({ req with route := { req.route with ClusterName := rule.ClusterName } }, none)) = _
            rw [if_neg (by simpa using hcn)]
          intro habs
          rw [hval] at habs
          exact absurd habs (by simp)

/-- Witness for `LookupCluster_spec`: a product absent from the route
table yields `ErrNoProductRule` with an empty cluster name. -/
theorem LookupCluster_spec_witness :
    LookupCluster ⟨none, [], "", []⟩ ⟨[], none, ⟨"", "", "", none⟩⟩
      = (⟨[], none, ⟨"", "", "", some .ErrNoProductRule⟩⟩, some .ErrNoProductRule) :=
  (LookupCluster_spec ⟨none, [], "", []⟩ ⟨[], none, ⟨"", "", "", none⟩⟩).1 rfl

/-- **C10**: when the first rule whose condition matches the request has
the empty string as its cluster name, `LookupCluster` produces exactly the
no-match outcome: `ErrNoMatchRule`, with the request's cluster name set to
the empty string — even though a rule did match. -/
theorem LookupCluster_empty_cluster_name (t : HostTable) (req : Request)
    (p : String) (rules : List RouteRule) (rule : RouteRule) :
    List.find? (fun e => e.1 == req.route.Product) t.productRouteTable = some (p, rules) →
    List.find? (fun rule => rule.Cond req) rules = some rule →
    rule.ClusterName = "" →
    LookupCluster t req
      = ({ req with route := { req.route with ClusterName := "", Error := some .ErrNoMatchRule } }, some .ErrNoMatchRule) := by
  intro hfind hr hcn
  rw [LookupCluster, hfind]
  show (let clusterName := match List.find? (fun rule => rule.Cond req) rules with | some rule => rule.ClusterName | none => ""; if clusterName == "" then ({ req with route := { req.route with ClusterName := "", Error := some .ErrNoMatchRule } }, some RouteError.ErrNoMatchRule) else ({ req with route := { req.route with ClusterName := clusterName } }, none)) = _
  rw [hr]
  show (if rule.ClusterName == "" then ({ req with route := { req.route with ClusterName := "", Error := some .ErrNoMatchRule } }, some RouteError.ErrNoMatchRule) else ({ req with route := { req.route with ClusterName := rule.ClusterName } }, none)) = _
  rw [if_pos (by simpa using hcn)]

/-- Witness for `LookupCluster_empty_cluster_name`: a rule whose condition
always matches but whose cluster name is empty gives `ErrNoMatchRule`. -/
theorem LookupCluster_empty_cluster_name_witness :
    LookupCluster ⟨none, [], "", [("p", [⟨fun _ => true, ""⟩])]⟩ ⟨[], none, ⟨"", "p", "", none⟩⟩
      = (⟨[], none, ⟨"", "p", "", some .ErrNoMatchRule⟩⟩, some .ErrNoMatchRule) :=
  LookupCluster_empty_cluster_name ⟨none, [], "", [("p", [⟨fun _ => true, ""⟩])]⟩
    ⟨[], none, ⟨"", "p", "", none⟩⟩ "p" [⟨fun _ => true, ""⟩] ⟨fun _ => true, ""⟩
    rfl rfl rfl

theorem findHostRoute_err (t : HostTable) (host : List Char) :
    (findHostRoute t host).2 = none ∨ (findHostRoute t host).2 = some .ErrNoProduct := by
  cases ht : t.hostTrie with
  | none =>
    right
    rw [findHostRoute, ht]
  | some trie =>
    cases hg : trieGet trie (goSplit '.' (reverseFqdnHost (hostnameStrip (toLowerGo host)))) with
    | none =>
      right
      rw [findHostRoute, ht]
      show (match trieGet trie (goSplit '.' (reverseFqdnHost (hostnameStrip (toLowerGo host)))) with
        | some r => ((r, none) : TrieRoute × Option RouteError)
        | none => (⟨"", ""⟩, some .ErrNoProduct)).2 = some RouteError.ErrNoProduct
      rw [hg]
    | some r =>
      left
      rw [findHostRoute, ht]
      show (match trieGet trie (goSplit '.' (reverseFqdnHost (hostnameStrip (toLowerGo host)))) with
        | some r => ((r, none) : TrieRoute × Option RouteError)
        | none => (⟨"", ""⟩, some .ErrNoProduct)).2 = none
      rw [hg]

/-- **C7**: `LookupHostTagAndProduct` resolves by hostname first — a trie
hit is stored with no error; on a hostname miss it falls back to the VIP
table when the session carries a VIP; when the applicable lookups fail and
a non-empty default product is configured, the default product is returned
with no error; only when all of those fail is the lookup error
(`ErrNoProduct`, the only error `findHostRoute`/`findVipRoute` produce)
returned. -/
theorem LookupHostTagAndProduct_spec (t : HostTable) (req : Request) :
    (∀ r, findHostRoute t req.host = (r, none) →
      LookupHostTagAndProduct t req
        = ({ req with route := { req.route with HostTag := r.tag, Product := r.product, Error := none } }, none)) ∧
    (∀ e err vip r, findHostRoute t req.host = (e, some err) → req.vip = some vip →
      findVipRoute t vip = (r, none) →
      LookupHostTagAndProduct t req
        = ({ req with route := { req.route with HostTag := r.tag, Product := r.product, Error := none } }, none)) ∧
    (∀ e err, findHostRoute t req.host = (e, some err) → req.vip = none → t.defaultProduct ≠ "" →
      LookupHostTagAndProduct t req
        = ({ req with route := { req.route with HostTag := "", Product := t.defaultProduct, Error := none } }, none)) ∧
    (∀ e err vip r err2, findHostRoute t req.host = (e, some err) → req.vip = some vip →
      findVipRoute t vip = (r, some err2) → t.defaultProduct ≠ "" →
      LookupHostTagAndProduct t req
        = ({ req with route := { req.route with HostTag := "", Product := t.defaultProduct, Error := none } }, none)) ∧
    (∀ e err, findHostRoute t req.host = (e, some err) → req.vip = none → t.defaultProduct = "" →
      (LookupHostTagAndProduct t req).2 = some err) ∧
    (∀ e err vip r err2, findHostRoute t req.host = (e, some err) → req.vip = some vip →
      findVipRoute t vip = (r, some err2) → t.defaultProduct = "" →
      (LookupHostTagAndProduct t req).2 = some err2) ∧
    ((findHostRoute t req.host).2 = none ∨ (findHostRoute t req.host).2 = some .ErrNoProduct) ∧
    (∀ vip, (findVipRoute t vip).2 = none ∨ (findVipRoute t vip).2 = some .ErrNoProduct) := by
  refine ⟨?_, ?_, ?_, ?_, ?_, ?_, findHostRoute_err t req.host, ?_⟩
  · intro r hfr
    simp [LookupHostTagAndProduct, hfr]
  · intro e err vip r hfr hvip hfvr
    simp [LookupHostTagAndProduct, hfr, hvip, hfvr]
  · intro e err hfr hvip hd
    simp [LookupHostTagAndProduct, hfr, hvip, hd]
  · intro e err vip r err2 hfr hvip hfvr hd
    simp [LookupHostTagAndProduct, hfr, hvip, hfvr, hd]
  · intro e err hfr hvip hd
    simp [LookupHostTagAndProduct, hfr, hvip, hd]
  · intro e err vip r err2 hfr hvip hfvr hd
    simp [LookupHostTagAndProduct, hfr, hvip, hfvr, hd]
  · intro vip
    rw [findVipRoute]
    by_cases hlen : t.vipTable.length == 0
    · rw [if_pos hlen]
      right
      rfl
    · rw [if_neg hlen]
      cases hf : List.find? (fun e => e.1 == vip) t.vipTable with
      | none => right; rfl
      | some e => left; rfl

/-- Witness for `LookupHostTagAndProduct_spec`: with an empty table but a
configured default product, a request with no VIP gets the default product
and no error. -/
theorem LookupHostTagAndProduct_spec_witness :
    LookupHostTagAndProduct ⟨none, [], "dflt", []⟩ ⟨"h".toList, none, ⟨"", "", "", none⟩⟩
      = (⟨"h".toList, none, ⟨"", "dflt", "", none⟩⟩, none) :=
  (LookupHostTagAndProduct_spec ⟨none, [], "dflt", []⟩ ⟨"h".toList, none, ⟨"", "", "", none⟩⟩).2.2.1
    ⟨"", ""⟩ .ErrNoProduct rfl rfl (by decide)

end Route
